import Mathlib

/-!
# rule-cache-waf: the recency cache and the decision engine

A shallow embedding of `src/waf/cache/lru.go` (the generic LRU cache) and of the
request-time decision engine of `src/waf/main.go` / `src/waf/waf.go`, together with
the properties of the specification that are settled on them.

Conventions of the embedding

* Go's `int` is `Int`.  The only arithmetic on it is `currentSize ± 1` and
  `maxSize - currentSize`; `currentSize` is bounded by the number of live list
  elements, so 64-bit wrap-around is out of reach and is not modelled.
* A pointer `*list.Element` is represented by the key of the item that owns the
  element (`item.element`).  Every element is created by `Set` for exactly one
  item, and the item's key never changes.
* A Go run-time panic and a non-terminating loop are explicit results
  (`Outcome.panicked`, `Outcome.diverges`); both carry the state at that point.
* The mutex of the cache is not modelled: every operation is one atomic step.
* Functions of the Go standard library (`net.ParseIP`, `IPNet.Contains`,
  `http.CanonicalHeaderKey`, `json.Unmarshal`, `json.MarshalIndent`) are parameters,
  collected in `Waf.StdLib`.  General statements hold for every such library; concrete
  scenarios are evaluated on `Waf.scenarioLib`.
* The handler's calls to `log.Printf` are kept as a list of log entries; since every
  call of `applyRule` is preceded by one, the log tells which rules were evaluated.
-/

namespace Cache

/-! ## Data model (`lru.go`, lines 8-28) -/

/-- Result of a call that may fail at run time. -/
inductive Outcome (σ : Type) (α : Type) where
  /-- normal return with a return value and the state after the call -/
  | ok (ret : α) (s : σ)
  /-- a Go run-time panic; `s` is the state when the panic is raised -/
  | panicked (s : σ)
  /-- the call never returns; `s` is the state the loop is stuck in -/
  | diverges (s : σ)
  deriving DecidableEq, Repr

/-- One element of `keyList`.  `key` is the key of the owning item.  `isItem` tells
what the element's `Value` field holds: `true` for the `*item[T]` stored by
`PushFront(newItem)`, `false` for the key string stored by
`itm.element.Value = key` in the overwrite branch of `Set`. -/
structure Elem where
  key : String
  isItem : Bool
  deriving DecidableEq, Repr

/-- The cache `LRU[T]`.  `items` is the map from key to the item's value, `keyList`
the doubly linked recency list with the front (most recently used) first. -/
structure LRU (V : Type) where
  items : List (String × V)
  keyList : List Elem
  maxSize : Int
  currentSize : Int
  deriving DecidableEq, Repr

variable {V : Type}

/-- `NewLru(limit)`: empty map, empty list, `maxSize = limit`, `currentSize = 0`. -/
def NewLru (limit : Int) : LRU V :=
  { items := [], keyList := [], maxSize := limit, currentSize := 0 }

/-- `MaxStorage()`. -/
def MaxStorage (lru : LRU V) : Int := lru.maxSize

/-- `RemainingStorage()`: `maxSize - currentSize`. -/
def RemainingStorage (lru : LRU V) : Int := lru.maxSize - lru.currentSize

/-- `Len()`: the length of the recency list. -/
def Len (lru : LRU V) : Int := (lru.keyList.length : Int)

/-! ## Map and list primitives -/

/-- `delete(items, key)`. -/
def mapDelete (key : String) (items : List (String × V)) : List (String × V) :=
  items.filter (fun p => p.1 != key)

/-- `itm.value = value` on the item stored under `key`. -/
def mapAssign (key : String) (value : V) (items : List (String × V)) : List (String × V) :=
  items.map (fun p => if p.1 == key then (p.1, value) else p)

/-- `keyList.Remove(e)` for the element owned by `key`. -/
def listRemove (key : String) (l : List Elem) : List Elem :=
  l.eraseP (fun e => e.key == key)

/-- `keyList.MoveToFront(e)` for the element owned by `key`; a no-op when the list
holds no such element. -/
def moveToFront (key : String) (l : List Elem) : List Elem :=
  match l.find? (fun e => e.key == key) with
  | some e => e :: listRemove key l
  | none => l

/-- `itm.element.Value = key`: the element owned by `key` now holds a string. -/
def storeKeyString (key : String) (l : List Elem) : List Elem :=
  l.map (fun e => if e.key == key then { e with isItem := false } else e)

/-! ## Operations (`lru.go`, lines 42-111) -/

/-- `Get(key)`: on a hit the element moves to the front and `(value, true)` is
returned; on a miss `(zero value, false)`. -/
def Get [Inhabited V] (lru : LRU V) (key : String) : (V × Bool) × LRU V :=
  match lru.items.lookup key with
  | some v => ((v, true), { lru with keyList := moveToFront key lru.keyList })
  | none => ((default, false), lru)

/-- `Remove(key)`: on a hit the map entry and the list element are deleted and
`currentSize` drops by one. -/
def Remove [Inhabited V] (lru : LRU V) (key : String) : (V × Bool) × LRU V :=
  match lru.items.lookup key with
  | some v =>
      ((v, true),
        { lru with
          items := mapDelete key lru.items
          keyList := listRemove key lru.keyList
          currentSize := lru.currentSize - 1 })
  | none => ((default, false), lru)

/-- `removeOldest()`.  Returns at once on an empty list.  Otherwise the back element's
`Value` is asserted to be an `*item[T]`; the assertion panics when the element holds
a string.  If the item's key is in the map it is deleted and `currentSize` drops by
one; the back element is then unlinked. -/
def removeOldest (lru : LRU V) : Outcome (LRU V) Unit :=
  if lru.keyList.length = 0 then .ok () lru
  else
    match lru.keyList.getLast? with
    | none => .ok () lru
    | some oldest =>
        if oldest.isItem then
          let lru1 :=
            if (lru.items.lookup oldest.key).isSome then
              { lru with
                items := mapDelete oldest.key lru.items
                currentSize := lru.currentSize - 1 }
            else lru
          .ok () { lru1 with keyList := lru.keyList.dropLast }
        else .panicked lru

/-- The loop `for lru.currentSize > lru.maxSize { lru.removeOldest() }`.  `fuel`
bounds the number of iterations; with no fuel left and the guard still true the
result is `diverges`.  `Set` supplies more fuel than the list has elements, and each
iteration on a non-empty list unlinks one element, so fuel only runs out in a state
with an empty list and `currentSize > maxSize`, which `removeOldest` leaves
unchanged: there the Go loop spins forever. -/
def evictLoop : Nat → LRU V → Outcome (LRU V) Unit
  | 0, lru => if lru.currentSize > lru.maxSize then .diverges lru else .ok () lru
  | fuel + 1, lru =>
      if lru.currentSize > lru.maxSize then
        match removeOldest lru with
        | .ok _ lru1 => evictLoop fuel lru1
        | .panicked lru1 => .panicked lru1
        | .diverges lru1 => .diverges lru1
      else .ok () lru

/-- `Set(key, value)`.  Existing key: the value is overwritten, the element's `Value`
becomes the key string and the element moves to the front.  New key: a fresh element
holding the item is pushed to the front, the map entry is added, `currentSize` grows
by one and the eviction loop runs. -/
def Set (lru : LRU V) (key : String) (value : V) : Outcome (LRU V) Bool :=
  match lru.items.lookup key with
  | some _ =>
      .ok true
        { lru with
          items := mapAssign key value lru.items
          keyList := moveToFront key (storeKeyString key lru.keyList) }
  | none =>
      let lru1 : LRU V :=
        { lru with
          keyList := { key := key, isItem := true } :: lru.keyList
          items := (key, value) :: lru.items
          currentSize := lru.currentSize + 1 }
      match evictLoop (lru1.keyList.length + 1) lru1 with
      | .ok _ lru2 => .ok true lru2
      | .panicked lru2 => .panicked lru2
      | .diverges lru2 => .diverges lru2

/-! ## Call sequences -/

/-- A call of one of the three mutating operations. -/
inductive Op (V : Type) where
  | get (key : String)
  | set (key : String) (value : V)
  | remove (key : String)
  deriving DecidableEq, Repr

/-- The cache after one call, `none` when the call does not return. -/
def stepOp [Inhabited V] (lru : LRU V) : Op V → Option (LRU V)
  | .get k => some (Get lru k).2
  | .set k v =>
      match Set lru k v with
      | .ok _ lru1 => some lru1
      | _ => none
  | .remove k => some (Remove lru k).2

/-- The cache after a sequence of calls, each of which returns. -/
def runOps [Inhabited V] : LRU V → List (Op V) → Option (LRU V)
  | lru, [] => some lru
  | lru, op :: rest =>
      match stepOp lru op with
      | some lru1 => runOps lru1 rest
      | none => none

/-- The states reachable from `NewLru(N)` by a sequence of `Get`, `Set` and `Remove`
calls. -/
def Reachable [Inhabited V] (N : Int) (lru : LRU V) : Prop :=
  ∃ ops : List (Op V), runOps (NewLru N) ops = some lru

/-! ## Recency of a key in a call sequence -/

/-- The call is a `Get`. -/
def Op.isGet : Op V → Bool
  | .get _ => true
  | _ => false

/-- The call is a `Remove`. -/
def Op.isRemove : Op V → Bool
  | .remove _ => true
  | _ => false

/-- The keys of the `Set` calls of a sequence, in call order. -/
def setKeys : List (Op V) → List String
  | [] => []
  | .set k _ :: rest => k :: setKeys rest
  | .get _ :: rest => setKeys rest
  | .remove _ :: rest => setKeys rest

/-- The call is a `Set` or a `Get` on key `k`. -/
def touches (k : String) : Op V → Bool
  | .get k1 => k1 == k
  | .set k1 _ => k1 == k
  | .remove _ => false

/-- Position (counted from 1) of the last `Set` or `Get` on `k` in the sequence, `0`
when the sequence has none. -/
def lastUse (k : String) : List (Op V) → Nat
  | [] => 0
  | op :: rest =>
      if lastUse k rest ≠ 0 then lastUse k rest + 1
      else if touches k op then 1 else 0

/-- The back (least recently used) element of the list holds a key string instead of
an item, i.e. the entry was overwritten by `Set` since it was inserted. -/
def backHoldsString (lru : LRU V) : Bool :=
  match lru.keyList.getLast? with
  | some e => !e.isItem
  | none => false

/-- Representation invariant: the list and the map hold the same keys, each once,
and `currentSize` counts the list elements. -/
structure WF (lru : LRU V) : Prop where
  keysNodup : (lru.keyList.map Elem.key).Nodup
  itemsNodup : (lru.items.map Prod.fst).Nodup
  sameKeys : ∀ k, k ∈ lru.items.map Prod.fst ↔ k ∈ lru.keyList.map Elem.key
  size : lru.currentSize = (lru.keyList.length : Int)

/-- Invariant of the states reachable from `NewLru(N)`: the representation invariant,
the fixed capacity and the occupancy bound (for a negative capacity the cache stays
empty). -/
structure Inv (N : Int) (lru : LRU V) : Prop where
  wf : WF lru
  max : lru.maxSize = N
  bound : lru.currentSize ≤ lru.maxSize ∨ lru.currentSize = 0

/-- What a cache has to satisfy to follow a sequence of `Set` and `Get` calls that
never evicted: it holds the keys that were set, every element still holds its item, and
the list is ordered by the last use of its keys, most recent first. -/
structure Tracks (N : Int) (ops : List (Op V)) (lru : LRU V) : Prop where
  inv : Inv N lru
  keys : ∀ k, k ∈ lru.keyList.map Elem.key ↔ k ∈ setKeys ops
  allItems : ∀ e ∈ lru.keyList, e.isItem = true
  order : (lru.keyList.map Elem.key).Pairwise (fun a b => lastUse b ops < lastUse a ops)

end Cache

namespace Waf

open Cache

/-! ## Data model of the gateway (`waf.go`, `tls_fingerprinter.go`) -/

/-- The contents of a `[]byte`. -/
abbrev Bytes := List Nat

/-- The type `net.IPNet`: network number and mask, each a byte list. -/
structure IPNet where
  IP : List Nat
  Mask : List Nat
  deriving DecidableEq, Repr

/-- The functions of the Go standard library that the rules call.  They are parameters
of the embedding. -/
structure StdLib where
  /-- decoded JSON values (`interface{}`) -/
  JSON : Type
  /-- `net.ParseIP`; `none` stands for the `nil` result -/
  ParseIP : String → Option (List Nat)
  /-- `(*net.IPNet).Contains` -/
  Contains : IPNet → List Nat → Bool
  /-- `http.CanonicalHeaderKey` -/
  CanonicalHeaderKey : String → String
  /-- `json.Unmarshal` into an `interface{}`; `none` stands for an error -/
  Unmarshal : Bytes → Option JSON
  /-- `json.MarshalIndent(v, "", "  ")`; `none` stands for an error -/
  MarshalIndent : JSON → Option Bytes

/-- The type `Rule`. -/
structure Rule where
  ID : Int
  Name : String
  deriving DecidableEq, Repr

/-- The field of `tls.ConnectionState` that the rules read. -/
structure ConnectionState where
  Version : Nat
  deriving DecidableEq, Repr

/-- The fields of `tls.ClientHelloInfo` that the rules read. -/
structure ClientHelloInfo where
  CipherSuites : List Nat
  SupportedProtos : List String
  SupportedPoints : List Nat
  SupportedVersions : List Nat
  SupportedCurves : List Nat
  deriving DecidableEq, Repr

/-- The type `PartialClientHelloFingerprint`. -/
structure PartialClientHelloFingerprint where
  Version : Nat
  CipherSuites : List Nat
  SupportedProtos : List String
  SupportedPoints : List Nat
  SupportedVersions : List Nat
  SupportedCurves : List Nat
  deriving DecidableEq, Repr

/-- `SafariFingerprint`, with the numeric values of the `crypto/tls` constants. -/
def SafariFingerprint : PartialClientHelloFingerprint where
  Version := 0x0304
  CipherSuites :=
    [0x1301, 0x1302, 0x1303, 0xc02c, 0xc02b, 0xcca9, 0xc030, 0xc02f, 0xcca8, 0xc00a,
     0xc009, 0xc014, 0xc013, 0x009d, 0x009c, 0x0035, 0x002f, 0xc012, 0x000a]
  SupportedProtos := ["h2", "http/1.1"]
  SupportedPoints := [0]
  SupportedVersions := [0x0304, 0x0303, 0x0302, 0x0301]
  SupportedCurves := [29, 23, 24, 25]

/-- `ChromeFingerprint`, with the numeric values of the `crypto/tls` constants. -/
def ChromeFingerprint : PartialClientHelloFingerprint where
  Version := 0x0304
  CipherSuites :=
    [0x1301, 0x1302, 0x1303, 0xc02b, 0xc02f, 0xc02c, 0xc030, 0xcca9, 0xcca8, 0xc013,
     0xc014, 0x009c, 0x009d, 0x002f, 0x0035]
  SupportedProtos := ["h2", "http/1.1"]
  SupportedPoints := [0]
  SupportedVersions := [0x0304, 0x0303]
  SupportedCurves := [29, 23, 24]

/-- The request body `r.Body` as a reader: the bytes `io.ReadAll` delivers and whether
the read ends in an error. -/
structure Body where
  pending : Bytes
  failing : Bool
  deriving DecidableEq, Repr

/-- The fields of `http.Request` that the handler and the rules touch.  `Header` is the
map from header name to values. -/
structure Request where
  ProtoMajor : Int
  Host : String
  RemoteAddr : String
  Header : List (String × List String)
  Body : Body
  TLS : Option ConnectionState
  deriving DecidableEq, Repr

/-- The aggregate `RuleCacheWAF`: the fields read or written at handshake and request
time.  `OriginHost` is `OriginURL.Host`; `clientHelloInfoStore` is the map from remote
address to captured handshake. -/
structure RuleCacheWAF where
  OriginHost : String
  Rules : List Rule
  Cache : LRU Int
  clientHelloInfoStore : List (String × ClientHelloInfo)
  fingerprintsToCheckAgainst : List PartialClientHelloFingerprint
  blockedSubnets : List IPNet
  validHeaders : List String
  deriving DecidableEq, Repr

/-! ## Handshake capture (`main.go`, lines 93-103) -/

/-- `getClientInfo`: the capture is stored unless the address already has an entry. -/
def getClientInfo (w : RuleCacheWAF) (remoteAddrString : String) (info : ClientHelloInfo) :
    RuleCacheWAF :=
  if (w.clientHelloInfoStore.lookup remoteAddrString).isSome then w
  else { w with clientHelloInfoStore := (remoteAddrString, info) :: w.clientHelloInfoStore }

/-- The zero value of `tls.ClientHelloInfo`, which indexing the map yields for an
absent address. -/
def zeroClientHelloInfo : ClientHelloInfo :=
  { CipherSuites := [], SupportedProtos := [], SupportedPoints := [],
    SupportedVersions := [], SupportedCurves := [] }

/-! ## Rule predicates (`waf.go`, lines 81-168; `tls_fingerprinter.go`, lines 70-95) -/

/-- `compareFieldStrict`: same length and equal element by element. -/
def compareFieldStrict {T : Type} [DecidableEq T] (a b : List T) : Bool :=
  if a.length ≠ b.length then false
  else (a.zip b).all (fun p => decide (p.1 = p.2))

/-- `compareFieldLenient`: every element of `b` occurs in `a`. -/
def compareFieldLenient {T : Type} [DecidableEq T] (a b : List T) : Bool :=
  b.all (fun u => a.any (fun v => decide (v = u)))

/-- `tlsFingerprintClient`.  `none` stands for a run-time panic: `r.TLS` is `nil`, or
one of the slice expressions `info.SupportedVersions[1:]`, `info.SupportedCurves[1:]`
is applied to an empty slice. -/
def tlsFingerprintClient (w : RuleCacheWAF) (info : ClientHelloInfo) (r : Request) :
    Option Bool :=
  match r.TLS with
  | none => none
  | some tls =>
      match info.SupportedVersions, info.SupportedCurves with
      | _ :: versions, _ :: curves =>
          let clientFingerprint : PartialClientHelloFingerprint :=
            { Version := tls.Version
              CipherSuites := info.CipherSuites
              SupportedProtos := info.SupportedProtos
              SupportedPoints := info.SupportedPoints
              SupportedVersions := versions
              SupportedCurves := curves }
          let matched := w.fingerprintsToCheckAgainst.any (fun validFingerprint =>
            decide (clientFingerprint.Version = validFingerprint.Version) &&
            compareFieldLenient clientFingerprint.CipherSuites validFingerprint.CipherSuites &&
            compareFieldStrict clientFingerprint.SupportedProtos validFingerprint.SupportedProtos &&
            compareFieldStrict clientFingerprint.SupportedPoints validFingerprint.SupportedPoints &&
            compareFieldStrict clientFingerprint.SupportedVersions
              validFingerprint.SupportedVersions &&
            compareFieldStrict clientFingerprint.SupportedCurves validFingerprint.SupportedCurves)
          some (!matched)
      | _, _ => none

/-- `IsIPBlocked`: `false` for an address that does not parse, otherwise whether some
blocked subnet contains it. -/
def IsIPBlocked (lib : StdLib) (w : RuleCacheWAF) (r : Request) : Bool :=
  match lib.ParseIP r.RemoteAddr with
  | none => false
  | some ip => w.blockedSubnets.any (fun subnet => lib.Contains subnet ip)

/-- `PrettyJSONFingerprinting`.  Returns the verdict and the request with the body
left by the call: after a successful read the body is replaced by a fresh buffer over
the bytes read; after a failed read it is left drained. -/
def PrettyJSONFingerprinting (lib : StdLib) (r : Request) : Bool × Request :=
  if r.Body.failing then (true, { r with Body := { pending := [], failing := true } })
  else
    let bodyBytes := r.Body.pending
    let r1 : Request := { r with Body := { pending := bodyBytes, failing := false } }
    match lib.Unmarshal bodyBytes with
    | none => (true, r1)
    | some jsonData =>
        match lib.MarshalIndent jsonData with
        | none => (true, r1)
        | some prettyJSON => (decide (prettyJSON ≠ bodyBytes), r1)

/-- `headersPresent`: every expected name is a key of the header map. -/
def headersPresent (headers : List (String × List String)) : List String → Bool
  | [] => true
  | header :: rest =>
      if (headers.lookup header).isSome then headersPresent headers rest else false

/-- `headersCanonical`: every key of the header map equals its canonical form. -/
def headersCanonical (lib : StdLib) : List (String × List String) → Bool
  | [] => true
  | (name, _) :: rest =>
      if lib.CanonicalHeaderKey name ≠ name then false else headersCanonical lib rest

/-- `HeaderFingerprinting`. -/
def HeaderFingerprinting (lib : StdLib) (w : RuleCacheWAF) (r : Request) : Bool :=
  if !headersPresent r.Header w.validHeaders || !headersCanonical lib r.Header then true
  else false

/-! ## Rule dispatch and the request handler (`waf.go`, lines 170-193; `main.go`, lines 26-68) -/

/-- The `switch ruleID` of `applyRule`: the verdict `result` and the request as the
predicate leaves it; `none` when the predicate panics.  An id outside `0..3` matches
no case and leaves `result` at `false`. -/
def evalRule (lib : StdLib) (w : RuleCacheWAF) (ruleID : Int) (r : Request) :
    Option (Bool × Request) :=
  if ruleID = 0 then some (IsIPBlocked lib w r, r)
  else if ruleID = 1 then some (HeaderFingerprinting lib w r, r)
  else if ruleID = 2 then some (PrettyJSONFingerprinting lib r)
  else if ruleID = 3 then
    let clientHelloInfo := (w.clientHelloInfoStore.lookup r.RemoteAddr).getD zeroClientHelloInfo
    (tlsFingerprintClient w clientHelloInfo r).map (fun result => (result, r))
  else some (false, r)

/-- `applyRule`: the switch, then `Cache.Set(clientIP, ruleID)` when the verdict is
`true`. -/
def applyRule (lib : StdLib) (w : RuleCacheWAF) (ruleID : Int) (r : Request) :
    Outcome (RuleCacheWAF × Request) Bool :=
  let clientIP := r.RemoteAddr
  match evalRule lib w ruleID r with
  | none => .panicked (w, r)
  | some (result, r1) =>
      if result then
        match Cache.Set w.Cache clientIP ruleID with
        | .ok _ c => .ok true ({ w with Cache := c }, r1)
        | .panicked c => .panicked ({ w with Cache := c }, r1)
        | .diverges c => .diverges ({ w with Cache := c }, r1)
      else .ok false (w, r1)

/-- The lines the handler writes to the log.  Each call of `applyRule` is preceded by
one `applying...` line, so the log records which rules were evaluated, in order. -/
inductive LogEntry where
  | applyingCachedRule (ruleID : Int)
  | applyingRule (name : String) (ruleID : Int)
  | blockedUsingCache (ip : String)
  | blocked (ip : String)
  deriving DecidableEq, Repr

/-- What the handler does with the response writer: `written status body` for
`w.WriteHeader(status); w.Write(body)`, `forwarded r` for `p.ServeHTTP(w, r)`. -/
inductive Response where
  | written (status : Nat) (body : String)
  | forwarded (r : Request)
  deriving DecidableEq, Repr

/-- The state a handler run works on: the aggregate, the request and the log. -/
structure Ctx where
  waf : RuleCacheWAF
  req : Request
  log : List LogEntry
  deriving DecidableEq, Repr

/-- The fixed body of a block response. -/
def blockBody : String := "Blocked - Client does not meet specified requirements"

/-- The loop `for _, rule := range Rules` of the handler: the final value of
`isMalicious`, which is `false` on entry. -/
def sweep (lib : StdLib) : List Rule → Ctx → Outcome Ctx Bool
  | [], c => .ok false c
  | rule :: rest, c =>
      let log1 := c.log ++ [LogEntry.applyingRule rule.Name rule.ID]
      match applyRule lib c.waf rule.ID c.req with
      | .ok isMalicious (w1, r1) =>
          if isMalicious then .ok true { waf := w1, req := r1, log := log1 }
          else sweep lib rest { waf := w1, req := r1, log := log1 }
      | .panicked (w1, r1) => .panicked { waf := w1, req := r1, log := log1 }
      | .diverges (w1, r1) => .diverges { waf := w1, req := r1, log := log1 }

/-- Lines 50-66 of the handler: the full sweep and the decision taken on its result. -/
def fullSweep (lib : StdLib) (c : Ctx) : Outcome Ctx Response :=
  match sweep lib c.waf.Rules c with
  | .ok isMalicious c1 =>
      if isMalicious then
        .ok (.written 403 blockBody) { c1 with log := c1.log ++ [LogEntry.blocked c1.req.RemoteAddr] }
      else .ok (.forwarded c1.req) c1
  | .panicked c1 => .panicked c1
  | .diverges c1 => .diverges c1

/-- Lines 34-66 of the handler, the decision engine: the cached rule first, then the
full sweep. -/
def decisionEngine (lib : StdLib) (w : RuleCacheWAF) (r : Request) : Outcome Ctx Response :=
  let clientIP := r.RemoteAddr
  match Cache.Get w.Cache clientIP with
  | ((ruleID, true), cache1) =>
      let w1 : RuleCacheWAF := { w with Cache := cache1 }
      let log1 := [LogEntry.applyingCachedRule ruleID]
      match applyRule lib w1 ruleID r with
      | .ok isMalicious (w2, r2) =>
          if isMalicious then
            .ok (.written 403 blockBody)
              { waf := w2, req := r2, log := log1 ++ [LogEntry.blockedUsingCache r2.RemoteAddr] }
          else fullSweep lib { waf := w2, req := r2, log := log1 }
      | .panicked (w2, r2) => .panicked { waf := w2, req := r2, log := log1 }
      | .diverges (w2, r2) => .diverges { waf := w2, req := r2, log := log1 }
  | ((_, false), cache1) => fullSweep lib { waf := { w with Cache := cache1 }, req := r, log := [] }

/-- The function returned by `ProxyHandler`: a request that is not HTTP/2 is forwarded
at once; otherwise `r.Host` is rewritten and the decision engine runs. -/
def ProxyHandler (lib : StdLib) (w : RuleCacheWAF) (r : Request) : Outcome Ctx Response :=
  if r.ProtoMajor ≠ 2 then .ok (.forwarded r) { waf := w, req := r, log := [] }
  else decisionEngine lib w { r with Host := w.OriginHost }

/-- The verdict of rule `ruleID` on the request: `some true` when it evaluates
malicious, `none` when the evaluation panics. -/
def verdict (lib : StdLib) (w : RuleCacheWAF) (ruleID : Int) (r : Request) : Option Bool :=
  (evalRule lib w ruleID r).map Prod.fst

/-- The log lines of a sweep over the given rules. -/
def sweepLog (rules : List Rule) : List LogEntry :=
  rules.map (fun rule => LogEntry.applyingRule rule.Name rule.ID)

/-- The decision of the full sweep as the specification words it, with no cache: the
rules are taken in declared order and the first one that evaluates malicious decides
for a block (`some (some rule)`); with no such rule the request is allowed
(`some none`).  `none` when a rule evaluated on the way has no verdict. -/
def sweepDecision (lib : StdLib) (w : RuleCacheWAF) (r : Request) :
    List Rule → Option (Option Rule)
  | [] => some none
  | rule :: rest =>
      match verdict lib w rule.ID r with
      | none => none
      | some true => some (some rule)
      | some false => sweepDecision lib w r rest

/-! ## An instance of the library interface

The properties of the engine hold for every `StdLib`.  The concrete scenarios are
evaluated on the instance below, which follows the Go functions on the inputs the
scenarios use: dotted-decimal IPv4 addresses, header names made of token characters,
and the JSON documents `null`, `true` and `false`. -/

/-- A decimal octet: one to three digits, no leading zero, at most 255. -/
def parseOctet (cs : List Char) : Option Nat :=
  match cs with
  | [] => none
  | c :: rest =>
      if cs.length > 3 then none
      else if !cs.all Char.isDigit then none
      else if c = '0' ∧ rest ≠ [] then none
      else
        let n := cs.foldl (fun acc d => 10 * acc + (d.toNat - 48)) 0
        if n ≤ 255 then some n else none

/-- The fields of a character list separated by dots. -/
def splitDots : List Char → List (List Char)
  | [] => [[]]
  | c :: cs =>
      match splitDots cs with
      | [] => [[c]]
      | first :: more => if c = '.' then [] :: first :: more else (c :: first) :: more

/-- The function `net.ParseIP` on dotted-decimal IPv4 text: the four octets. -/
def parseIPv4 (s : String) : Option (List Nat) :=
  match (splitDots s.data).map parseOctet with
  | [some a, some b, some c, some d] => some [a, b, c, d]
  | _ => none

/-- The method `Contains` of `net.IPNet`: equal lengths and equal bytes under the mask. -/
def maskContains (n : IPNet) (ip : List Nat) : Bool :=
  decide (ip.length = n.IP.length) &&
    ((n.IP.zip (n.Mask.zip ip)).all
      (fun t => decide (Nat.land t.1 t.2.1 = Nat.land t.2.2 t.2.1)))

/-- The function `http.CanonicalHeaderKey`: a name holding a character that is not a
token character is returned unchanged; otherwise the first letter and every letter
after a hyphen are upper-cased and the other letters lower-cased. -/
def canonicalHeaderKey (s : String) : String :=
  let isToken := fun (c : Char) => c.isAlphanum || "!#$%&'*+-.^_`|~".data.contains c
  if !s.data.all isToken then s
  else
    String.mk
      (s.data.foldl
        (fun (acc : List Char × Bool) c =>
          (acc.1 ++ [if acc.2 then c.toUpper else c.toLower], c = '-'))
        ([], true)).1

/-- The library instance of the scenarios. -/
def scenarioLib : StdLib where
  JSON := Option Bool
  ParseIP := parseIPv4
  Contains := maskContains
  CanonicalHeaderKey := canonicalHeaderKey
  Unmarshal := fun b =>
    if b = [110, 117, 108, 108] then some none
    else if b = [116, 114, 117, 101] then some (some true)
    else if b = [102, 97, 108, 115, 101] then some (some false)
    else none
  MarshalIndent := fun j =>
    match j with
    | none => some [110, 117, 108, 108]
    | some true => some [116, 114, 117, 101]
    | some false => some [102, 97, 108, 115, 101]

/-! ## Scenario data -/

/-- An HTTP/2 request without headers and with an empty body from the given remote
address, on a TLS 1.3 connection. -/
def requestFrom (addr : String) : Request :=
  { ProtoMajor := 2, Host := "gateway", RemoteAddr := addr, Header := [],
    Body := { pending := [], failing := false }, TLS := some { Version := 0x0304 } }

/-- A gateway as `NewRuleCacheWAF` builds it (cache `NewLru(10)`, the two baseline
fingerprints), configured with the header rule alone and one required header. -/
def headerGateway : RuleCacheWAF :=
  { OriginHost := "origin", Rules := [{ ID := 1, Name := "headers" }], Cache := NewLru 10,
    clientHelloInfoStore := [],
    fingerprintsToCheckAgainst := [SafariFingerprint, ChromeFingerprint],
    blockedSubnets := [], validHeaders := ["User-Agent"] }

/-- A gateway as `NewRuleCacheWAF` builds it, configured with the four rules in the
order of their ids and the blocked subnet `203.0.113.0/24`. -/
def subnetGateway : RuleCacheWAF :=
  { OriginHost := "origin",
    Rules := [{ ID := 0, Name := "ip" }, { ID := 1, Name := "headers" },
              { ID := 2, Name := "json" }, { ID := 3, Name := "tls" }],
    Cache := NewLru 10, clientHelloInfoStore := [],
    fingerprintsToCheckAgainst := [SafariFingerprint, ChromeFingerprint],
    blockedSubnets := [{ IP := [203, 0, 113, 0], Mask := [255, 255, 255, 0] }],
    validHeaders := [] }

/-- The cache after one client was blocked twice and nine further clients once each:
full, and the oldest element, that of the first client, holds a string. -/
def poisonedCache (addrs : List String) (first : String) (ruleID : Int) : LRU Int :=
  { items := (addrs.map fun a => (a, ruleID)) ++ [(first, ruleID)],
    keyList := (addrs.map fun a => { key := a, isItem := true }) ++
      [{ key := first, isItem := false }],
    maxSize := 10, currentSize := 10 }

/-- The header gateway after `10.0.0.1` was blocked twice and `10.0.0.2` to `10.0.0.10`
once each. -/
def poisonedHeaderGateway : RuleCacheWAF :=
  { headerGateway with
    Cache := poisonedCache
      ["10.0.0.10", "10.0.0.9", "10.0.0.8", "10.0.0.7", "10.0.0.6", "10.0.0.5",
       "10.0.0.4", "10.0.0.3", "10.0.0.2"] "10.0.0.1" 1 }

/-- The subnet gateway after `203.0.113.1` was blocked twice and `203.0.113.2` to
`203.0.113.10` once each. -/
def poisonedSubnetGateway : RuleCacheWAF :=
  { subnetGateway with
    Cache := poisonedCache
      ["203.0.113.10", "203.0.113.9", "203.0.113.8", "203.0.113.7", "203.0.113.6",
       "203.0.113.5", "203.0.113.4", "203.0.113.3", "203.0.113.2"] "203.0.113.1" 0 }

/-- The aggregate after the handler has served the requests one after the other;
`none` when one of the runs does not return. -/
def serveAll (lib : StdLib) : RuleCacheWAF → List Request → Option RuleCacheWAF
  | w, [] => some w
  | w, r :: rest =>
      match ProxyHandler lib w r with
      | .ok _ c => serveAll lib c.waf rest
      | _ => none

/-! ## Handshake registry: lookup and repeated capture -/

/-- `Lookup`: the expression `clientHelloInfoStore[addr]`, which yields the zero value
for an absent address. -/
def lookupClientHello (w : RuleCacheWAF) (addr : String) : ClientHelloInfo :=
  (w.clientHelloInfoStore.lookup addr).getD zeroClientHelloInfo

/-- The aggregate after `getClientInfo` has run for each capture of the list, in
order. -/
def recordAll (w : RuleCacheWAF) : List (String × ClientHelloInfo) → RuleCacheWAF
  | [] => w
  | (addr, info) :: rest => recordAll (getClientInfo w addr info) rest

/-! ## The candidate fingerprint and the per-baseline test of `tlsFingerprintClient` -/

/-- The struct literal at the head of `tlsFingerprintClient` (`waf.go`, lines 82-89): the
fingerprint of the client, with the first entry of the supported versions and of the
supported curves dropped.  `none` stands for the run-time panic of `r.TLS.Version` on a
`nil` `r.TLS` or of a slice expression `[1:]` on an empty slice. -/
def clientFingerprintOf (info : ClientHelloInfo) (r : Request) :
    Option PartialClientHelloFingerprint :=
  match r.TLS with
  | none => none
  | some tls =>
      match info.SupportedVersions, info.SupportedCurves with
      | _ :: versions, _ :: curves =>
          some
            { Version := tls.Version
              CipherSuites := info.CipherSuites
              SupportedProtos := info.SupportedProtos
              SupportedPoints := info.SupportedPoints
              SupportedVersions := versions
              SupportedCurves := curves }
      | _, _ => none

/-- The condition of the `if` in the loop over the baselines (`waf.go`, lines 93-98). -/
def profileMatches (clientFingerprint validFingerprint : PartialClientHelloFingerprint) :
    Bool :=
  decide (clientFingerprint.Version = validFingerprint.Version) &&
  compareFieldLenient clientFingerprint.CipherSuites validFingerprint.CipherSuites &&
  compareFieldStrict clientFingerprint.SupportedProtos validFingerprint.SupportedProtos &&
  compareFieldStrict clientFingerprint.SupportedPoints validFingerprint.SupportedPoints &&
  compareFieldStrict clientFingerprint.SupportedVersions validFingerprint.SupportedVersions &&
  compareFieldStrict clientFingerprint.SupportedCurves validFingerprint.SupportedCurves

/-- A handshake that offers what the Safari baseline lists, with the GREASE value
`0x0a0a` in front of the supported versions and of the supported curves. -/
def safariHello : ClientHelloInfo :=
  { CipherSuites := SafariFingerprint.CipherSuites
    SupportedProtos := SafariFingerprint.SupportedProtos
    SupportedPoints := SafariFingerprint.SupportedPoints
    SupportedVersions := 0x0a0a :: SafariFingerprint.SupportedVersions
    SupportedCurves := 0x0a0a :: SafariFingerprint.SupportedCurves }

/-! ## Request histories -/

/-- The handler answered with a block response. -/
def Response.isBlock : Response → Bool
  | .written _ _ => true
  | .forwarded _ => false

/-- The aggregate after the handler has served the requests one after the other,
together with the history: each request with the response it got.  `none` when one of
the runs does not return. -/
def serveLog (lib : StdLib) :
    RuleCacheWAF → List Request → Option (RuleCacheWAF × List (Request × Response))
  | w, [] => some (w, [])
  | w, r :: rest =>
      match ProxyHandler lib w r with
      | .ok resp c =>
          match serveLog lib c.waf rest with
          | some (w1, history) => some (w1, (r, resp) :: history)
          | none => none
      | _ => none

/-- The most recent request of the history that came from `client` and was blocked. -/
def lastBlocked (client : String) : List (Request × Response) → Option Request
  | [] => none
  | (r, resp) :: rest =>
      match lastBlocked client rest with
      | some r1 => some r1
      | none => if r.RemoteAddr = client ∧ resp.isBlock = true then some r else none

/-- Every rule id held by the cache is the id of a configured rule. -/
def CachedIdsConfigured (w : RuleCacheWAF) : Prop :=
  ∀ client i, w.Cache.items.lookup client = some i → ∃ rule ∈ w.Rules, rule.ID = i

end Waf

/-! # Properties of the recency cache -/

namespace Cache

variable {V : Type}

/-! ## Key-level view of the list primitives -/

theorem keys_listRemove (k : String) (l : List Elem) :
    (listRemove k l).map Elem.key = (l.map Elem.key).erase k := by
  induction l with
  | nil => rfl
  | cons e l ih =>
    by_cases h : e.key = k
    · simp [listRemove, List.eraseP_cons, List.erase_cons, h]
    · have ih1 : (List.eraseP (fun e => e.key == k) l).map Elem.key
          = (l.map Elem.key).erase k := ih
      simp [listRemove, List.eraseP_cons, List.erase_cons, h, ih1]

theorem keys_storeKeyString (k : String) (l : List Elem) :
    (storeKeyString k l).map Elem.key = l.map Elem.key := by
  unfold storeKeyString
  rw [List.map_map]
  apply List.map_congr_left
  intro e _
  by_cases h : e.key = k <;> simp [h]

theorem moveToFront_of_not_mem (k : String) (l : List Elem)
    (h : k ∉ l.map Elem.key) : moveToFront k l = l := by
  have hn : l.find? (fun e => e.key == k) = none := by
    rw [List.find?_eq_none]
    intro x hx hk
    exact h (List.mem_map.2 ⟨x, hx, by simpa using hk⟩)
  simp [moveToFront, hn]

theorem keys_moveToFront (k : String) (l : List Elem)
    (h : k ∈ l.map Elem.key) :
    (moveToFront k l).map Elem.key = k :: (l.map Elem.key).erase k := by
  obtain ⟨x, hx, hxk⟩ := List.mem_map.1 h
  cases hf : l.find? (fun e => e.key == k) with
  | none =>
    rw [List.find?_eq_none] at hf
    exact absurd (by simpa using hxk) (hf x hx)
  | some e =>
    have he : e.key = k := by simpa using List.find?_some hf
    simp [moveToFront, hf, he, keys_listRemove]

theorem mapDelete_keys (k : String) (items : List (String × V)) :
    (mapDelete k items).map Prod.fst = (items.map Prod.fst).filter (fun x => x != k) := by
  induction items with
  | nil => rfl
  | cons p items ih =>
    have ih1 : (List.filter (fun p => p.1 != k) items).map Prod.fst
        = (items.map Prod.fst).filter (fun x => x != k) := ih
    by_cases h : p.1 = k <;> simp [mapDelete, List.filter_cons, h, ih1]

theorem mapAssign_keys (k : String) (v : V) (items : List (String × V)) :
    (mapAssign k v items).map Prod.fst = items.map Prod.fst := by
  unfold mapAssign
  rw [List.map_map]
  apply List.map_congr_left
  intro p _
  by_cases h : p.1 = k <;> simp [h]

theorem lookup_eq_none_iff_not_mem (k : String) (items : List (String × V)) :
    items.lookup k = none ↔ k ∉ items.map Prod.fst := by
  rw [List.lookup_eq_none_iff]
  constructor
  · intro h hk
    obtain ⟨p, hp, rfl⟩ := List.mem_map.1 hk
    simpa using h p hp
  · intro h p hp
    have : p.1 ≠ k := fun e => h (List.mem_map.2 ⟨p, hp, e⟩)
    simpa using fun e => this e.symm

theorem lookup_mapDelete_self (k : String) (items : List (String × V)) :
    (mapDelete k items).lookup k = none := by
  rw [lookup_eq_none_iff_not_mem, mapDelete_keys]
  simp

theorem lookup_cons_of_ne (k a : String) (b : V) (items : List (String × V))
    (h : k ≠ a) : ((a, b) :: items).lookup k = items.lookup k := by
  have hk : (k == a) = false := by simpa using h
  simp [List.lookup_cons, hk]

theorem lookup_mapDelete_of_ne (k k1 : String) (items : List (String × V)) (h : k1 ≠ k) :
    (mapDelete k items).lookup k1 = items.lookup k1 := by
  induction items with
  | nil => rfl
  | cons p items ih =>
    obtain ⟨a, b⟩ := p
    have ih1 : (List.filter (fun p => p.1 != k) items).lookup k1 = items.lookup k1 := ih
    by_cases ha : a = k
    · subst ha
      rw [lookup_cons_of_ne _ _ _ _ h]
      simpa [mapDelete, List.filter_cons] using ih1
    · have hf : mapDelete k ((a, b) :: items) = (a, b) :: mapDelete k items := by
        simp [mapDelete, List.filter_cons, ha]
      rw [hf]
      by_cases hb : k1 = a
      · subst hb
        simp
      · rw [lookup_cons_of_ne _ _ _ _ hb, lookup_cons_of_ne _ _ _ _ hb]
        exact ih

theorem lookup_mapAssign_self (k : String) (v : V) (items : List (String × V))
    (h : (items.lookup k).isSome) : (mapAssign k v items).lookup k = some v := by
  induction items with
  | nil => simp at h
  | cons p items ih =>
    obtain ⟨a, b⟩ := p
    by_cases ha : k = a
    · subst ha
      simp [mapAssign]
    · have hne : ¬ a = k := fun e => ha e.symm
      rw [lookup_cons_of_ne _ _ _ _ ha] at h
      have hf : mapAssign k v ((a, b) :: items) = (a, b) :: mapAssign k v items := by
        simp [mapAssign, hne]
      rw [hf, lookup_cons_of_ne _ _ _ _ ha]
      exact ih h

theorem lookup_mapAssign_of_ne (k k1 : String) (v : V) (items : List (String × V))
    (h : k1 ≠ k) : (mapAssign k v items).lookup k1 = items.lookup k1 := by
  induction items with
  | nil => rfl
  | cons p items ih =>
    obtain ⟨a, b⟩ := p
    by_cases ha : a = k
    · subst ha
      have hf : mapAssign a v ((a, b) :: items) = (a, v) :: mapAssign a v items := by
        simp [mapAssign]
      rw [hf, lookup_cons_of_ne _ _ _ _ h, lookup_cons_of_ne _ _ _ _ h]
      exact ih
    · have hf : mapAssign k v ((a, b) :: items) = (a, b) :: mapAssign k v items := by
        simp [mapAssign, ha]
      rw [hf]
      by_cases hb : k1 = a
      · subst hb
        simp
      · rw [lookup_cons_of_ne _ _ _ _ hb, lookup_cons_of_ne _ _ _ _ hb]
        exact ih

/-! ## The representation invariant is preserved -/

theorem wf_new (N : Int) : WF (NewLru N : LRU V) :=
  ⟨by simp [NewLru], by simp [NewLru], by simp [NewLru], by simp [NewLru]⟩

theorem inv_new (N : Int) : Inv N (NewLru N : LRU V) :=
  ⟨wf_new N, rfl, Or.inr rfl⟩

theorem keys_moveToFront_perm (k : String) (l : List Elem) :
    ((moveToFront k l).map Elem.key).Perm (l.map Elem.key) := by
  by_cases h : k ∈ l.map Elem.key
  · rw [keys_moveToFront k l h]
    exact (List.perm_cons_erase h).symm
  · rw [moveToFront_of_not_mem k l h]

theorem length_moveToFront (k : String) (l : List Elem) :
    (moveToFront k l).length = l.length := by
  have h := (keys_moveToFront_perm k l).length_eq
  simpa using h

theorem mem_of_lookup_isSome (k : String) (items : List (String × V))
    (h : (items.lookup k).isSome) : k ∈ items.map Prod.fst := by
  by_contra hn
  rw [← lookup_eq_none_iff_not_mem] at hn
  simp [hn] at h

theorem wf_moveToFront {lru : LRU V} (h : WF lru) (k : String) :
    WF { lru with keyList := moveToFront k lru.keyList } := by
  have hp := keys_moveToFront_perm k lru.keyList
  refine ⟨hp.nodup_iff.2 h.keysNodup, h.itemsNodup, ?_, ?_⟩
  · intro x
    exact (h.sameKeys x).trans hp.mem_iff.symm
  · show lru.currentSize = ((moveToFront k lru.keyList).length : Int)
    rw [length_moveToFront]
    exact h.size

theorem wf_get [Inhabited V] {lru : LRU V} (h : WF lru) (k : String) :
    WF (Get lru k).2 := by
  unfold Get
  cases hl : lru.items.lookup k with
  | none => exact h
  | some v => exact wf_moveToFront h k

theorem wf_remove [Inhabited V] {lru : LRU V} (h : WF lru) (k : String) :
    WF (Remove lru k).2 := by
  unfold Remove
  cases hl : lru.items.lookup k with
  | none => exact h
  | some v =>
    have hk : k ∈ lru.items.map Prod.fst := mem_of_lookup_isSome k _ (by simp [hl])
    have hk2 : k ∈ lru.keyList.map Elem.key := (h.sameKeys k).1 hk
    refine ⟨?_, ?_, ?_, ?_⟩
    · show ((listRemove k lru.keyList).map Elem.key).Nodup
      rw [keys_listRemove]
      exact h.keysNodup.erase k
    · show ((mapDelete k lru.items).map Prod.fst).Nodup
      rw [mapDelete_keys]
      exact h.itemsNodup.filter _
    · intro x
      show x ∈ (mapDelete k lru.items).map Prod.fst ↔ x ∈ (listRemove k lru.keyList).map Elem.key
      rw [mapDelete_keys, keys_listRemove, h.keysNodup.mem_erase_iff, List.mem_filter,
        h.sameKeys x]
      simp [and_comm]
    · show lru.currentSize - 1 = ((listRemove k lru.keyList).length : Int)
      have h1 : (listRemove k lru.keyList).length = lru.keyList.length - 1 := by
        have := List.length_erase_of_mem hk2
        simpa [← keys_listRemove] using this
      have h2 : 0 < lru.keyList.length := by
        have := List.length_pos_of_mem hk2
        simpa using this
      rw [h1, h.size]
      omega

theorem wf_set_existing {lru : LRU V} (h : WF lru) (k : String) (v : V) :
    WF { lru with
         items := mapAssign k v lru.items
         keyList := moveToFront k (storeKeyString k lru.keyList) } := by
  have hp := keys_moveToFront_perm k (storeKeyString k lru.keyList)
  rw [keys_storeKeyString] at hp
  refine ⟨hp.nodup_iff.2 h.keysNodup, ?_, ?_, ?_⟩
  · show ((mapAssign k v lru.items).map Prod.fst).Nodup
    rw [mapAssign_keys]
    exact h.itemsNodup
  · intro x
    show x ∈ (mapAssign k v lru.items).map Prod.fst ↔ _
    rw [mapAssign_keys]
    exact (h.sameKeys x).trans hp.mem_iff.symm
  · show lru.currentSize = ((moveToFront k (storeKeyString k lru.keyList)).length : Int)
    rw [length_moveToFront]
    simpa [storeKeyString] using h.size

theorem wf_push {lru : LRU V} (h : WF lru) (k : String) (v : V)
    (hk : lru.items.lookup k = none) :
    WF { lru with
         keyList := { key := k, isItem := true } :: lru.keyList
         items := (k, v) :: lru.items
         currentSize := lru.currentSize + 1 } := by
  have hk1 : k ∉ lru.items.map Prod.fst := (lookup_eq_none_iff_not_mem k _).1 hk
  have hk2 : k ∉ lru.keyList.map Elem.key := fun hm => hk1 ((h.sameKeys k).2 hm)
  refine ⟨?_, ?_, ?_, ?_⟩
  · exact List.nodup_cons.2 ⟨hk2, h.keysNodup⟩
  · exact List.nodup_cons.2 ⟨hk1, h.itemsNodup⟩
  · intro x
    simp only [List.map_cons, List.mem_cons]
    rw [h.sameKeys x]
  · show lru.currentSize + 1 = (((⟨k, true⟩ : Elem) :: lru.keyList).length : Int)
    rw [h.size]
    simp

/-- One iteration of the eviction loop on a list whose back element holds an item. -/
theorem removeOldest_item (lru : LRU V) {init : List Elem} {e : Elem}
    (hl : lru.keyList = init ++ [e]) (he : e.isItem = true)
    (hm : (lru.items.lookup e.key).isSome) :
    removeOldest lru = .ok ()
      { items := mapDelete e.key lru.items, keyList := init,
        maxSize := lru.maxSize, currentSize := lru.currentSize - 1 } := by
  unfold removeOldest
  simp [hl, he, hm] at *

/-- One iteration of the eviction loop on a list whose back element holds a string. -/
theorem removeOldest_string (lru : LRU V) {init : List Elem} {e : Elem}
    (hl : lru.keyList = init ++ [e]) (he : e.isItem = false) :
    removeOldest lru = .panicked lru := by
  unfold removeOldest
  simp [hl, he]

theorem wf_removeOldest {lru : LRU V} (h : WF lru) {init : List Elem} {e : Elem}
    (hl : lru.keyList = init ++ [e]) :
    WF { items := mapDelete e.key lru.items, keyList := init,
         maxSize := lru.maxSize, currentSize := lru.currentSize - 1 } := by
  have hn := h.keysNodup
  rw [hl, List.map_append, List.map_singleton] at hn
  have hnot : e.key ∉ init.map Elem.key := by
    intro hm
    have := (List.nodup_append.1 hn).2.2
    exact this hm (List.mem_singleton_self _)
  refine ⟨(List.nodup_append.1 hn).1, ?_, ?_, ?_⟩
  · show ((mapDelete e.key lru.items).map Prod.fst).Nodup
    rw [mapDelete_keys]
    exact h.itemsNodup.filter _
  · intro x
    show x ∈ (mapDelete e.key lru.items).map Prod.fst ↔ x ∈ init.map Elem.key
    rw [mapDelete_keys, List.mem_filter, h.sameKeys x, hl, List.map_append, List.map_singleton,
      List.mem_append, List.mem_singleton]
    constructor
    · rintro ⟨h1 | h1, h2⟩
      · exact h1
      · simp [h1] at h2
    · intro h1
      refine ⟨Or.inl h1, ?_⟩
      have : x ≠ e.key := fun hx => hnot (hx ▸ h1)
      simpa using this
  · show lru.currentSize - 1 = (init.length : Int)
    rw [h.size, hl]
    simp

/-! ## What `Set` returns -/

theorem evictLoop_of_le (fuel : Nat) (lru : LRU V) (h : lru.currentSize ≤ lru.maxSize) :
    evictLoop fuel lru = .ok () lru := by
  have hg : ¬ lru.currentSize > lru.maxSize := by omega
  cases fuel <;> simp [evictLoop, hg]

theorem removeOldest_nil (lru : LRU V) (h : lru.keyList = []) :
    removeOldest lru = .ok () lru := by
  simp [removeOldest, h]

theorem removeOldest_length (lru lru1 : LRU V) (u : Unit)
    (h : removeOldest lru = .ok u lru1) :
    lru1.keyList.length = lru.keyList.length - 1 := by
  unfold removeOldest at h
  split_ifs at h with h0
  · simp only [Outcome.ok.injEq, true_and] at h
    rw [← h, h0]
  · cases hl : lru.keyList.getLast? with
    | none =>
      simp only [hl, Outcome.ok.injEq, true_and] at h
      rw [List.getLast?_eq_none_iff] at hl
      rw [← h, hl]
      rfl
    | some e =>
      cases he : e.isItem with
      | false => simp [hl, he] at h
      | true =>
        simp only [hl, he, if_true, Outcome.ok.injEq, true_and] at h
        rw [← h]
        simp

theorem evictLoop_stuck (fuel : Nat) (lru : LRU V) (hl : lru.keyList = [])
    (hg : lru.currentSize > lru.maxSize) : evictLoop fuel lru = .diverges lru := by
  induction fuel with
  | zero => simp [evictLoop, hg]
  | succ n ih => simp [evictLoop, hg, removeOldest_nil lru hl, ih]

/-- The fuel that `Set` passes to the eviction loop is enough: more fuel gives the
same result.  So `diverges` is only returned for a loop that makes no progress. -/
theorem evictLoop_fuel (extra : Nat) :
    ∀ (n : Nat) (lru : LRU V), lru.keyList.length = n →
      evictLoop (n + 1 + extra) lru = evictLoop (n + 1) lru := by
  intro n
  induction n with
  | zero =>
    intro lru hn
    have hl : lru.keyList = [] := List.length_eq_zero.1 hn
    by_cases hg : lru.currentSize > lru.maxSize
    · rw [evictLoop_stuck _ lru hl hg, evictLoop_stuck _ lru hl hg]
    · rw [evictLoop_of_le _ lru (by omega), evictLoop_of_le _ lru (by omega)]
  | succ m ih =>
    intro lru hn
    by_cases hg : lru.currentSize > lru.maxSize
    · have e1 : m + 1 + 1 + extra = (m + 1 + extra) + 1 := by omega
      rw [e1]
      simp only [evictLoop, hg, if_true]
      cases hr : removeOldest lru with
      | ok u lru1 =>
        have hlen := removeOldest_length lru lru1 u hr
        exact ih lru1 (by omega)
      | panicked lru1 => rfl
      | diverges lru1 => rfl
    · rw [evictLoop_of_le _ lru (by omega), evictLoop_of_le _ lru (by omega)]

theorem set_existing (lru : LRU V) (k : String) (v w : V)
    (h : lru.items.lookup k = some w) :
    Set lru k v = .ok true
      { lru with
        items := mapAssign k v lru.items
        keyList := moveToFront k (storeKeyString k lru.keyList) } := by
  simp [Set, h]

theorem set_new_room (lru : LRU V) (k : String) (v : V)
    (h : lru.items.lookup k = none) (hr : lru.currentSize + 1 ≤ lru.maxSize) :
    Set lru k v = .ok true
      { lru with
        keyList := { key := k, isItem := true } :: lru.keyList
        items := (k, v) :: lru.items
        currentSize := lru.currentSize + 1 } := by
  simp only [Set, h]
  rw [evictLoop_of_le _ _ (by simpa using hr)]

theorem set_new_evict (lru : LRU V) (hwf : WF lru) (k : String) (v : V)
    (h : lru.items.lookup k = none) (hfull : lru.currentSize = lru.maxSize)
    {init : List Elem} {e : Elem}
    (hl : ({ key := k, isItem := true } : Elem) :: lru.keyList = init ++ [e])
    (he : e.isItem = true) :
    Set lru k v = .ok true
      { items := mapDelete e.key ((k, v) :: lru.items), keyList := init,
        maxSize := lru.maxSize, currentSize := lru.currentSize } := by
  have hwf1 := wf_push hwf k v h
  have hmem : (((k, v) :: lru.items).lookup e.key).isSome := by
    have h1 : e.key ∈ (({ key := k, isItem := true } : Elem) :: lru.keyList).map Elem.key := by
      rw [hl]
      simp
    have h2 := (hwf1.sameKeys e.key).2 h1
    cases hh : ((k, v) :: lru.items).lookup e.key with
    | some x => rfl
    | none => exact absurd h2 ((lookup_eq_none_iff_not_mem _ _).1 hh)
  have hstep := removeOldest_item
    { lru with
        keyList := { key := k, isItem := true } :: lru.keyList
        items := (k, v) :: lru.items
        currentSize := lru.currentSize + 1 } hl he hmem
  simp only [Set, h]
  have hg : lru.currentSize + 1 > lru.maxSize := by omega
  have hg2 : ¬ (lru.currentSize > lru.maxSize) := by omega
  have hc : lru.currentSize + 1 - 1 = lru.currentSize := by omega
  simp only [evictLoop, hg, hstep, if_true, hg2, if_false, hc]

theorem set_new_panic (lru : LRU V) (k : String) (v : V)
    (h : lru.items.lookup k = none) (hfull : lru.maxSize < lru.currentSize + 1)
    {init : List Elem} {e : Elem}
    (hl : ({ key := k, isItem := true } : Elem) :: lru.keyList = init ++ [e])
    (he : e.isItem = false) :
    Set lru k v = .panicked
      { lru with
        keyList := { key := k, isItem := true } :: lru.keyList
        items := (k, v) :: lru.items
        currentSize := lru.currentSize + 1 } := by
  have hstep := removeOldest_string
    { lru with
        keyList := { key := k, isItem := true } :: lru.keyList
        items := (k, v) :: lru.items
        currentSize := lru.currentSize + 1 } hl he
  simp only [Set, h]
  have hg : lru.currentSize + 1 > lru.maxSize := by omega
  simp only [evictLoop, hg, hstep, if_true]

theorem set_negative_capacity (N : Int) (hN : N < 0) (k : String) (v : V) :
    Set ({ items := [], keyList := [], maxSize := N, currentSize := 0 } : LRU V) k v
      = .diverges { items := [], keyList := [], maxSize := N, currentSize := 0 } := by
  have h1 : (0 : Int) + 1 > N := by omega
  have h2 : (0 : Int) + 1 - 1 > N := by omega
  have h3 : N < 1 := by omega
  simp [Set, evictLoop, removeOldest, mapDelete, h1, h2, h3, hN]

/-! ## The invariant along call sequences -/

theorem exists_concat_of_cons (a : Elem) (l : List Elem) :
    ∃ init e, a :: l = init ++ [e] := by
  rcases List.eq_nil_or_concat (a :: l) with h | ⟨L, b, h⟩
  · simp at h
  · exact ⟨L, b, by simpa using h⟩

theorem eq_empty_of_size_zero {lru : LRU V} (h : WF lru) (h0 : lru.currentSize = 0) :
    lru = { items := [], keyList := [], maxSize := lru.maxSize, currentSize := 0 } := by
  have hl : lru.keyList = [] := by
    have := h.size
    rw [h0] at this
    exact List.length_eq_zero.1 (by exact_mod_cast this.symm)
  have hi : lru.items = [] := by
    rw [List.eq_nil_iff_forall_not_mem]
    intro p hp
    have := (h.sameKeys p.1).1 (List.mem_map.2 ⟨p, hp, rfl⟩)
    simp [hl] at this
  cases lru
  simp_all

theorem inv_set {N : Int} {lru lru1 : LRU V} {k : String} {v : V} {b : Bool}
    (h : Inv N lru) (hs : Set lru k v = .ok b lru1) : Inv N lru1 ∧ b = true := by
  cases hl : lru.items.lookup k with
  | some w =>
    rw [set_existing lru k v w hl] at hs
    injection hs with hb hst
    subst hst
    exact ⟨⟨wf_set_existing h.wf k v, h.max, h.bound⟩, hb.symm⟩
  | none =>
    by_cases hr : lru.currentSize + 1 ≤ lru.maxSize
    · rw [set_new_room lru k v hl hr] at hs
      injection hs with hb hst
      subst hst
      exact ⟨⟨wf_push h.wf k v hl, h.max, Or.inl hr⟩, hb.symm⟩
    · obtain ⟨init, e, hdec⟩ := exists_concat_of_cons { key := k, isItem := true } lru.keyList
      by_cases hfull : lru.currentSize = lru.maxSize
      · cases he : e.isItem with
        | true =>
          rw [set_new_evict lru h.wf k v hl hfull hdec he] at hs
          injection hs with hb hst
          subst hst
          have hw := wf_removeOldest (wf_push h.wf k v hl) hdec
          refine ⟨⟨⟨hw.keysNodup, hw.itemsNodup, hw.sameKeys, ?_⟩, h.max, Or.inl (le_of_eq hfull)⟩,
            hb.symm⟩
          have hsz := hw.size
          simp only at hsz ⊢
          omega
        | false =>
          rw [set_new_panic lru k v hl (by omega) hdec he] at hs
          cases hs
      · have h0 : lru.currentSize = 0 := by
          rcases h.bound with hb | hb
          · omega
          · exact hb
        have hneg : lru.maxSize < 0 := by omega
        have hempty := eq_empty_of_size_zero h.wf h0
        rw [hempty, set_negative_capacity lru.maxSize hneg k v] at hs
        cases hs

theorem inv_get [Inhabited V] {N : Int} {lru : LRU V} (h : Inv N lru) (k : String) :
    Inv N (Get lru k).2 := by
  refine ⟨wf_get h.wf k, ?_, ?_⟩
  · unfold Get
    cases lru.items.lookup k <;> exact h.max
  · unfold Get
    cases lru.items.lookup k <;> exact h.bound

theorem inv_remove [Inhabited V] {N : Int} {lru : LRU V} (h : Inv N lru) (k : String) :
    Inv N (Remove lru k).2 := by
  refine ⟨wf_remove h.wf k, ?_, ?_⟩
  · unfold Remove
    cases lru.items.lookup k <;> exact h.max
  · unfold Remove
    cases hl : lru.items.lookup k with
    | none => exact h.bound
    | some w =>
      show lru.currentSize - 1 ≤ lru.maxSize ∨ lru.currentSize - 1 = 0
      have hk : k ∈ lru.keyList.map Elem.key :=
        (h.wf.sameKeys k).1 (mem_of_lookup_isSome k _ (by simp [hl]))
      have hpos : 0 < lru.keyList.length := by
        have := List.length_pos_of_mem hk
        simpa using this
      have hsz := h.wf.size
      rcases h.bound with hb | hb
      · left; omega
      · omega

theorem inv_stepOp [Inhabited V] {N : Int} {lru lru1 : LRU V} {op : Op V}
    (h : Inv N lru) (hs : stepOp lru op = some lru1) : Inv N lru1 := by
  cases op with
  | get k =>
    simp only [stepOp, Option.some.injEq] at hs
    exact hs ▸ inv_get h k
  | remove k =>
    simp only [stepOp, Option.some.injEq] at hs
    exact hs ▸ inv_remove h k
  | set k v =>
    simp only [stepOp] at hs
    cases hset : Set lru k v with
    | ok b s =>
      rw [hset] at hs
      simp only [Option.some.injEq] at hs
      exact hs ▸ (inv_set h hset).1
    | panicked s => rw [hset] at hs; cases hs
    | diverges s => rw [hset] at hs; cases hs

theorem inv_runOps [Inhabited V] {N : Int} (ops : List (Op V)) :
    ∀ {lru lru1 : LRU V}, Inv N lru → runOps lru ops = some lru1 → Inv N lru1 := by
  induction ops with
  | nil =>
    intro lru lru1 h hr
    simp only [runOps, Option.some.injEq] at hr
    exact hr ▸ h
  | cons op rest ih =>
    intro lru lru1 h hr
    simp only [runOps] at hr
    cases hstep : stepOp lru op with
    | none => rw [hstep] at hr; cases hr
    | some s =>
      rw [hstep] at hr
      exact ih (inv_stepOp h hstep) hr

theorem inv_of_reachable [Inhabited V] {N : Int} {lru : LRU V} (h : Reachable N lru) :
    Inv N lru := by
  obtain ⟨ops, hops⟩ := h
  exact inv_runOps ops (inv_new N) hops

/-! ## Recency order -/

theorem lastUse_le_length (k : String) (ops : List (Op V)) : lastUse k ops ≤ ops.length := by
  induction ops with
  | nil => simp [lastUse]
  | cons op rest ih =>
    simp only [lastUse, List.length_cons]
    split_ifs <;> omega

theorem lastUse_append (k : String) (xs ys : List (Op V)) :
    lastUse k (xs ++ ys)
      = if lastUse k ys ≠ 0 then xs.length + lastUse k ys else lastUse k xs := by
  induction xs with
  | nil => by_cases h : lastUse k ys = 0 <;> simp [lastUse, h]
  | cons x xs ih =>
    show lastUse k (x :: (xs ++ ys)) = _
    simp only [lastUse, List.length_cons]
    rw [ih]
    split_ifs <;> omega

theorem lastUse_snoc (k : String) (xs : List (Op V)) (op : Op V) :
    lastUse k (xs ++ [op]) = if touches k op then xs.length + 1 else lastUse k xs := by
  rw [lastUse_append]
  by_cases h : touches k op = true <;> simp [lastUse, h]

theorem lastUse_pos_of_mem (k : String) (ops : List (Op V)) (op : Op V)
    (hm : op ∈ ops) (ht : touches k op = true) : 0 < lastUse k ops := by
  induction ops with
  | nil => simp at hm
  | cons x rest ih =>
    simp only [lastUse]
    rcases List.mem_cons.1 hm with h | h
    · subst h
      split_ifs <;> omega
    · have := ih h
      split_ifs <;> omega

theorem lastUse_eq_zero_of_untouched (k : String) (ops : List (Op V))
    (h : ∀ op ∈ ops, touches k op = false) : lastUse k ops = 0 := by
  induction ops with
  | nil => rfl
  | cons x rest ih =>
    have h1 := ih (fun op hop => h op (List.mem_cons_of_mem _ hop))
    have h2 := h x (List.mem_cons_self _ _)
    simp [lastUse, h1, h2]

theorem setKeys_append (xs ys : List (Op V)) :
    setKeys (xs ++ ys) = setKeys xs ++ setKeys ys := by
  induction xs with
  | nil => rfl
  | cons x xs ih => cases x <;> simp [setKeys, ih]

theorem mem_setKeys (k : String) (ops : List (Op V)) :
    k ∈ setKeys ops ↔ ∃ v, Op.set k v ∈ ops := by
  induction ops with
  | nil => simp [setKeys]
  | cons x xs ih =>
    cases x with
    | get k1 => simp [setKeys, ih]
    | remove k1 => simp [setKeys, ih]
    | set k1 v1 =>
      simp only [setKeys, List.mem_cons, ih, Op.set.injEq]
      constructor
      · rintro (h | ⟨v, h⟩)
        · exact ⟨v1, Or.inl ⟨h, rfl⟩⟩
        · exact ⟨v, Or.inr h⟩
      · rintro ⟨v, h | h⟩
        · exact Or.inl h.1
        · exact Or.inr ⟨v, h⟩

theorem runOps_append [Inhabited V] (xs ys : List (Op V)) :
    ∀ lru : LRU V, runOps lru (xs ++ ys) = (runOps lru xs).bind (fun t => runOps t ys) := by
  induction xs with
  | nil => intro lru; rfl
  | cons x xs ih =>
    intro lru
    simp only [List.cons_append, runOps]
    cases stepOp lru x with
    | none => rfl
    | some t => exact ih t

theorem mem_moveToFront (k : String) (l : List Elem) (e : Elem)
    (h : e ∈ moveToFront k l) : e ∈ l := by
  unfold moveToFront at h
  cases hf : l.find? (fun e => e.key == k) with
  | none => simpa [hf] using h
  | some x =>
    rw [hf] at h
    rcases List.mem_cons.1 h with h1 | h1
    · exact h1 ▸ List.mem_of_find?_eq_some hf
    · exact List.mem_of_mem_eraseP h1

/-- The order of the list after the key `k` has been used and moved to the front. -/
theorem order_touch (xs : List (Op V)) (op : Op V) (k : String) (K : List String)
    (hK : K.Nodup) (ht : ∀ k1, touches k1 op = true ↔ k1 = k)
    (h0 : K.Pairwise (fun a b => lastUse b xs < lastUse a xs)) :
    (k :: K.erase k).Pairwise
      (fun a b => lastUse b (xs ++ [op]) < lastUse a (xs ++ [op])) := by
  have hsame : ∀ a, a ≠ k → lastUse a (xs ++ [op]) = lastUse a xs := by
    intro a ha
    have : ¬ touches a op = true := fun h => ha ((ht a).1 h)
    rw [lastUse_snoc]
    simp [this]
  have hk : lastUse k (xs ++ [op]) = xs.length + 1 := by
    rw [lastUse_snoc]
    simp [(ht k).2 rfl]
  rw [List.pairwise_cons]
  constructor
  · intro b hb
    have hbk : b ≠ k := (hK.mem_erase_iff.1 hb).1
    rw [hsame b hbk, hk]
    have := lastUse_le_length b xs
    omega
  · refine (h0.sublist (List.erase_sublist k K)).imp_of_mem ?_
    intro a b ha hb hab
    rw [hsame a (hK.mem_erase_iff.1 ha).1, hsame b (hK.mem_erase_iff.1 hb).1]
    exact hab

/-- The order of the list after a call that uses a key outside the list. -/
theorem order_untouched (xs : List (Op V)) (op : Op V) (K : List String)
    (ht : ∀ k1 ∈ K, touches k1 op = false)
    (h0 : K.Pairwise (fun a b => lastUse b xs < lastUse a xs)) :
    K.Pairwise (fun a b => lastUse b (xs ++ [op]) < lastUse a (xs ++ [op])) := by
  refine h0.imp_of_mem ?_
  intro a b ha hb hab
  rw [lastUse_snoc, lastUse_snoc]
  simp [ht a ha, ht b hb, hab]

theorem tracks_new (N : Int) : Tracks N ([] : List (Op V)) (NewLru N) :=
  ⟨inv_new N, by simp [NewLru, setKeys], by simp [NewLru], by simp [NewLru]⟩

theorem length_of_tracks {N : Int} {ops : List (Op V)} {lru : LRU V}
    (h : Tracks N ops lru) (hnd : (setKeys ops).Nodup) :
    lru.keyList.length = (setKeys ops).length := by
  have hp : (lru.keyList.map Elem.key).Perm (setKeys ops) :=
    (List.perm_ext_iff_of_nodup h.inv.wf.keysNodup hnd).2 h.keys
  simpa using hp.length_eq

theorem tracks_get [Inhabited V] {N : Int} {xs : List (Op V)} {lru : LRU V}
    (h : Tracks N xs lru) (k : String) :
    Tracks N (xs ++ [Op.get k]) (Get lru k).2 := by
  have hkeys : setKeys (xs ++ [Op.get k]) = setKeys xs := by
    simp [setKeys_append, setKeys]
  have hinv := inv_get h.inv k
  cases hl : lru.items.lookup k with
  | none =>
    have hget : (Get lru k).2 = lru := by simp [Get, hl]
    rw [hget] at hinv ⊢
    have hk : k ∉ lru.keyList.map Elem.key := fun hm =>
      (lookup_eq_none_iff_not_mem k _).1 hl ((h.inv.wf.sameKeys k).2 hm)
    refine ⟨hinv, ?_, h.allItems, ?_⟩
    · intro x
      rw [hkeys]
      exact h.keys x
    · refine order_untouched xs (Op.get k) _ ?_ h.order
      intro k1 hk1
      have : k ≠ k1 := fun e => hk (e ▸ hk1)
      simpa [touches] using this
  | some v =>
    have hget : (Get lru k).2 = { lru with keyList := moveToFront k lru.keyList } := by
      simp [Get, hl]
    rw [hget] at hinv ⊢
    have hk : k ∈ lru.keyList.map Elem.key :=
      (h.inv.wf.sameKeys k).1 (mem_of_lookup_isSome k _ (by simp [hl]))
    refine ⟨hinv, ?_, ?_, ?_⟩
    · intro x
      rw [hkeys]
      exact ((keys_moveToFront_perm k lru.keyList).mem_iff).trans (h.keys x)
    · intro e he
      exact h.allItems e (mem_moveToFront k _ e he)
    · show ((moveToFront k lru.keyList).map Elem.key).Pairwise _
      rw [keys_moveToFront k _ hk]
      refine order_touch xs (Op.get k) k _ h.inv.wf.keysNodup ?_ h.order
      intro k1
      simp only [touches, beq_iff_eq]
      exact eq_comm

theorem tracks_set [Inhabited V] {N : Int} {xs : List (Op V)} {lru : LRU V}
    (h : Tracks N xs lru) (k : String) (v : V)
    (hnd : (setKeys (xs ++ [Op.set k v])).Nodup)
    (hlen : ((setKeys (xs ++ [Op.set k v])).length : Int) ≤ N) :
    ∃ lru1, Set lru k v = .ok true lru1 ∧ Tracks N (xs ++ [Op.set k v]) lru1 := by
  have hkeys : setKeys (xs ++ [Op.set k v]) = setKeys xs ++ [k] := by
    simp [setKeys_append, setKeys]
  rw [hkeys] at hnd hlen
  have hnd0 : (setKeys xs).Nodup := (List.nodup_append.1 hnd).1
  have hk0 : k ∉ setKeys xs := fun hm =>
    (List.nodup_append.1 hnd).2.2 hm (List.mem_singleton_self k)
  have hk : k ∉ lru.keyList.map Elem.key := fun hm => hk0 ((h.keys k).1 hm)
  have hl : lru.items.lookup k = none :=
    (lookup_eq_none_iff_not_mem k _).2 (fun hm => hk ((h.inv.wf.sameKeys k).1 hm))
  have hsz := h.inv.wf.size
  have hlen0 := length_of_tracks h hnd0
  have hroom : lru.currentSize + 1 ≤ lru.maxSize := by
    rw [h.inv.max, hsz, hlen0]
    simpa using hlen
  have hset := set_new_room lru k v hl hroom
  refine ⟨_, hset, (inv_set h.inv hset).1, ?_, ?_, ?_⟩
  · intro x
    rw [hkeys]
    simp only [List.map_cons, List.mem_cons, List.mem_append, h.keys x, List.not_mem_nil,
      or_false]
    exact or_comm
  · intro e he
    rcases List.mem_cons.1 he with h1 | h1
    · rw [h1]
    · exact h.allItems e h1
  · show (k :: lru.keyList.map Elem.key).Pairwise _
    have := order_touch xs (Op.set k v) k _ h.inv.wf.keysNodup
      (by intro k1; simp only [touches, beq_iff_eq]; exact eq_comm) h.order
    rwa [List.erase_of_not_mem hk] at this

/-- A sequence of `Set` and `Get` calls with distinct `Set` keys, at most `N` of them,
runs to the end without an eviction and leaves the list ordered by last use. -/
theorem tracks_runOps [Inhabited V] (N : Int) (ops : List (Op V)) :
    (∀ op ∈ ops, Op.isRemove op = false) → (setKeys ops).Nodup →
      ((setKeys ops).length : Int) ≤ N →
      ∃ lru, runOps (NewLru N) ops = some lru ∧ Tracks N ops lru := by
  induction ops using List.reverseRecOn with
  | nil =>
    intro _ _ _
    exact ⟨NewLru N, rfl, tracks_new N⟩
  | append_singleton xs op ih =>
    intro hrem hnd hlen
    have hpre : setKeys (xs ++ [op]) = setKeys xs ++ setKeys [op] := setKeys_append xs [op]
    have hnd0 : (setKeys xs).Nodup := by
      rw [hpre] at hnd
      exact (List.nodup_append.1 hnd).1
    have hlen0 : ((setKeys xs).length : Int) ≤ N := by
      rw [hpre, List.length_append] at hlen
      push_cast at hlen
      omega
    obtain ⟨lru, hrun, htr⟩ :=
      ih (fun o ho => hrem o (List.mem_append_left _ ho)) hnd0 hlen0
    rw [runOps_append, hrun]
    cases op with
    | get k =>
      exact ⟨(Get lru k).2, rfl, tracks_get htr k⟩
    | set k v =>
      obtain ⟨lru1, hset, htr1⟩ := tracks_set htr k v hnd hlen
      refine ⟨lru1, ?_, htr1⟩
      simp [runOps, stepOp, hset]
    | remove k =>
      have := hrem (Op.remove k) (by simp)
      simp [Op.isRemove] at this

theorem runOps_gets [Inhabited V] (post : List (Op V))
    (hpost : ∀ op ∈ post, Op.isGet op = true) :
    ∀ lru : LRU V, ∃ lru1, runOps lru post = some lru1 ∧ lru1.items = lru.items := by
  induction post with
  | nil => intro lru; exact ⟨lru, rfl, rfl⟩
  | cons op rest ih =>
    intro lru
    have hop := hpost op (List.mem_cons_self _ _)
    cases op with
    | get k =>
      obtain ⟨lru1, h1, h2⟩ :=
        ih (fun o ho => hpost o (List.mem_cons_of_mem _ ho)) (Get lru k).2
      refine ⟨lru1, by simpa [runOps, stepOp] using h1, ?_⟩
      rw [h2]
      unfold Get
      cases lru.items.lookup k <;> rfl
    | set k v => simp [Op.isGet] at hop
    | remove k => simp [Op.isGet] at hop

/-- The `N+1`-st insertion after a sequence that filled the cache evicts the key whose
last use is oldest; later `Get` calls do not change which keys are present. -/
theorem evict_after_tracks [Inhabited V] (N : Int) (hN : 1 ≤ N)
    (pre post : List (Op V)) (kN : String) (vN : V)
    (hpre : ∀ op ∈ pre, Op.isRemove op = false)
    (hpost : ∀ op ∈ post, Op.isGet op = true)
    (hdistinct : (setKeys pre ++ [kN]).Nodup)
    (hcount : ((setKeys pre).length : Int) = N) :
    ∃ lru e, runOps (NewLru N) (pre ++ Op.set kN vN :: post) = some lru ∧
      e ∈ setKeys pre ∧
      (∀ k ∈ setKeys pre, k ≠ e → lastUse e pre < lastUse k pre) ∧
      (∀ k ∈ setKeys pre ++ [kN], lru.items.lookup k = none ↔ k = e) := by
  have hnd0 : (setKeys pre).Nodup := (List.nodup_append.1 hdistinct).1
  have hkN : kN ∉ setKeys pre := fun hm =>
    (List.nodup_append.1 hdistinct).2.2 hm (List.mem_singleton_self kN)
  obtain ⟨lru0, hrun0, htr⟩ := tracks_runOps N pre hpre hnd0 (le_of_eq hcount)
  have hlen0 := length_of_tracks htr hnd0
  have hwf := htr.inv.wf
  have hl : lru0.items.lookup kN = none :=
    (lookup_eq_none_iff_not_mem kN _).2
      (fun hm => hkN ((htr.keys kN).1 ((hwf.sameKeys kN).1 hm)))
  have hfull : lru0.currentSize = lru0.maxSize := by
    rw [htr.inv.max, hwf.size, hlen0]
    exact hcount
  rcases List.eq_nil_or_concat lru0.keyList with hnil | ⟨init, e0, hdec⟩
  · rw [hnil] at hlen0
    rw [← hlen0] at hcount
    simp at hcount
    omega
  · have hdec0 : lru0.keyList = init ++ [e0] := by simpa using hdec
    have he0 : e0.isItem = true := htr.allItems e0 (by simp [hdec0])
    have hdec1 : ({ key := kN, isItem := true } : Elem) :: lru0.keyList
        = ({ key := kN, isItem := true } :: init) ++ [e0] := by simp [hdec0]
    have hset := set_new_evict lru0 hwf kN vN hl hfull hdec1 he0
    obtain ⟨lru2, hrun2, hitems⟩ := runOps_gets post hpost
      ({ items := mapDelete e0.key ((kN, vN) :: lru0.items),
         keyList := { key := kN, isItem := true } :: init,
         maxSize := lru0.maxSize, currentSize := lru0.currentSize } : LRU V)
    have he0mem : e0.key ∈ lru0.keyList.map Elem.key := by simp [hdec0]
    refine ⟨lru2, e0.key, ?_, (htr.keys _).1 he0mem, ?_, ?_⟩
    · rw [runOps_append, hrun0]
      simp [runOps, stepOp, hset, hrun2]
    · intro k hk hne
      have hk1 : k ∈ lru0.keyList.map Elem.key := (htr.keys k).2 hk
      have hord := htr.order
      rw [hdec0, List.map_append, List.map_singleton] at hord hk1
      rw [List.pairwise_append] at hord
      rw [List.mem_append, List.mem_singleton] at hk1
      rcases hk1 with h1 | h1
      · exact hord.2.2 k h1 e0.key (List.mem_singleton_self _)
      · exact absurd h1 hne
    · intro k hk
      rw [hitems]
      show (mapDelete e0.key ((kN, vN) :: lru0.items)).lookup k = none ↔ k = e0.key
      constructor
      · intro hnone
        by_contra hne
        rw [lookup_mapDelete_of_ne _ _ _ hne, lookup_eq_none_iff_not_mem] at hnone
        apply hnone
        rcases List.mem_append.1 hk with h1 | h1
        · have := (hwf.sameKeys k).2 ((htr.keys k).2 h1)
          simp only [List.map_cons, List.mem_cons]
          exact Or.inr this
        · simp only [List.mem_singleton] at h1
          simp [h1]
      · intro hke
        rw [hke]
        exact lookup_mapDelete_self _ _

/-- With no `Get` among the calls the oldest last use is that of the first key set. -/
theorem oldest_is_first (pre : List (Op V)) (e : String)
    (hpre : ∀ op ∈ pre, Op.isRemove op = false)
    (hsets : ∀ op ∈ pre, Op.isGet op = false)
    (hnd : (setKeys pre).Nodup) (he : e ∈ setKeys pre)
    (hmin : ∀ k ∈ setKeys pre, k ≠ e → lastUse e pre < lastUse k pre) :
    (setKeys pre).head? = some e := by
  cases pre with
  | nil => simp [setKeys] at he
  | cons op rest =>
    cases op with
    | get k => simpa [Op.isGet] using hsets (Op.get k) (List.mem_cons_self _ _)
    | remove k => simpa [Op.isRemove] using hpre (Op.remove k) (List.mem_cons_self _ _)
    | set k0 v0 =>
      simp only [setKeys, List.head?_cons, Option.some.injEq]
      by_contra hne
      simp only [setKeys, List.nodup_cons] at hnd
      have h0 : lastUse k0 rest = 0 := by
        apply lastUse_eq_zero_of_untouched
        intro op hop
        cases op with
        | get k => simpa [Op.isGet] using hsets (Op.get k) (List.mem_cons_of_mem _ hop)
        | remove k => rfl
        | set k v =>
          have hk : k ∈ setKeys rest := (mem_setKeys k rest).2 ⟨v, hop⟩
          have : k ≠ k0 := fun e1 => hnd.1 (e1 ▸ hk)
          simpa [touches] using this
      have h1 : lastUse k0 (Op.set k0 v0 :: rest) = 1 := by
        simp [lastUse, h0, touches]
      have h2 := hmin k0 (by simp [setKeys]) hne
      obtain ⟨v, hv⟩ := (mem_setKeys e _).1 he
      have h3 := lastUse_pos_of_mem e _ _ hv (by simp [touches])
      omega

/-- A `Get` on the first key after the second key was set, and none on the second key,
leaves the second key with the oldest last use. -/
theorem oldest_is_second (pre a mid : List (Op V)) (e k0 k1 : String) (v1 : V)
    (hsplit : pre = a ++ Op.set k1 v1 :: mid) (ha : setKeys a = [k0])
    (hget : Op.get k0 ∈ mid) (hno : ∀ op ∈ mid, op ≠ Op.get k1)
    (hnd : (setKeys pre).Nodup) (he : e ∈ setKeys pre)
    (hmin : ∀ k ∈ setKeys pre, k ≠ e → lastUse e pre < lastUse k pre) :
    e = k1 := by
  have hkeys : setKeys pre = k0 :: k1 :: setKeys mid := by
    rw [hsplit, setKeys_append, ha]
    rfl
  rw [hkeys] at hnd he hmin
  have hk1mid : k1 ∉ setKeys mid := (List.nodup_cons.1 (List.nodup_cons.1 hnd).2).1
  have h0 : lastUse k1 mid = 0 := by
    apply lastUse_eq_zero_of_untouched
    intro op hop
    cases op with
    | get k =>
      have : k ≠ k1 := fun e1 => hno _ hop (by rw [e1])
      simpa [touches] using this
    | remove k => rfl
    | set k v =>
      have hk : k ∈ setKeys mid := (mem_setKeys k mid).2 ⟨v, hop⟩
      have : k ≠ k1 := fun e1 => hk1mid (e1 ▸ hk)
      simpa [touches] using this
  have h1 : lastUse k1 pre = a.length + 1 := by
    rw [hsplit, lastUse_append]
    simp [lastUse, h0, touches]
  have hlater : ∀ op ∈ mid, touches e op = true → a.length + 2 ≤ lastUse e pre := by
    intro op hop ht
    have hp := lastUse_pos_of_mem e mid op hop ht
    rw [hsplit, lastUse_append]
    have hne : lastUse e mid ≠ 0 := by omega
    simp only [lastUse, hne, ne_eq, not_false_eq_true, if_true]
    have : lastUse e mid + 1 ≠ 0 := by omega
    simp only [this, not_false_eq_true, if_true]
    omega
  by_contra hne
  have hlt := hmin k1 (by simp) (fun h => hne h.symm)
  rcases List.mem_cons.1 he with h | h
  · have := hlater (Op.get k0) hget (by simp [touches, h])
    omega
  · rcases List.mem_cons.1 h with h | h
    · exact hne h
    · obtain ⟨v, hv⟩ := (mem_setKeys e mid).1 h
      have := hlater (Op.set e v) hv (by simp [touches])
      omega

/-! ## Claims on the cache -/

theorem get_fst_of_lookup [Inhabited V] (lru : LRU V) (k : String) (v : V)
    (h : lru.items.lookup k = some v) : (Get lru k).1 = (v, true) := by
  simp [Get, h]

theorem get_of_lookup_none [Inhabited V] (lru : LRU V) (k : String)
    (h : lru.items.lookup k = none) : Get lru k = ((default, false), lru) := by
  simp [Get, h]

/-- When `Set` has room, finds the key, or evicts an entry that still holds its item,
it returns `true` and the key is mapped to the new value. -/
theorem set_returns [Inhabited V] {N : Int} (hN : 0 ≤ N) {lru : LRU V} (h : Inv N lru)
    (k : String) (v : V)
    (hsafe : (lru.items.lookup k).isSome = true ∨ Len lru < N ∨ backHoldsString lru = false) :
    ∃ lru1, Set lru k v = .ok true lru1 ∧
      (0 < N → lru1.items.lookup k = some v) := by
  cases hl : lru.items.lookup k with
  | some w =>
    refine ⟨_, set_existing lru k v w hl, fun _ => ?_⟩
    exact lookup_mapAssign_self k v lru.items (by simp [hl])
  | none =>
    by_cases hroom : lru.currentSize + 1 ≤ lru.maxSize
    · exact ⟨_, set_new_room lru k v hl hroom, fun _ => by simp⟩
    · have hfull : lru.currentSize = lru.maxSize := by
        rcases h.bound with hb | hb
        · omega
        · have := h.max
          omega
      have hlen : Len lru = N := by
        show (lru.keyList.length : Int) = N
        rw [← h.wf.size, hfull, h.max]
      have hback : backHoldsString lru = false := by
        rcases hsafe with h1 | h1 | h1
        · simp [hl] at h1
        · omega
        · exact h1
      rcases List.eq_nil_or_concat lru.keyList with hnil | ⟨init, e, hdec⟩
      · -- capacity 0: the fresh element is itself the oldest one
        have hdec1 : ({ key := k, isItem := true } : Elem) :: lru.keyList
            = [] ++ [{ key := k, isItem := true }] := by simp [hnil]
        refine ⟨_, set_new_evict lru h.wf k v hl hfull hdec1 rfl, fun hpos => ?_⟩
        have : Len lru = 0 := by simp [Len, hnil]
        omega
      · have hdec0 : lru.keyList = init ++ [e] := by simpa using hdec
        have he : e.isItem = true := by
          simpa [backHoldsString, hdec0] using hback
        have hdec1 : ({ key := k, isItem := true } : Elem) :: lru.keyList
            = ({ key := k, isItem := true } :: init) ++ [e] := by simp [hdec0]
        refine ⟨_, set_new_evict lru h.wf k v hl hfull hdec1 he, fun _ => ?_⟩
        have hne : k ≠ e.key := by
          intro hke
          have h1 : e.key ∈ lru.keyList.map Elem.key := by simp [hdec0]
          have h2 := (h.wf.sameKeys e.key).2 h1
          exact (lookup_eq_none_iff_not_mem k _).1 hl (hke ▸ h2)
        show (mapDelete e.key ((k, v) :: lru.items)).lookup k = some v
        rw [lookup_mapDelete_of_ne _ _ _ hne]
        simp

/-- C1 (the code fails the claim).  `NewLru(1)`, `Set("a", 1)`, `Set("a", 2)` reaches a
state with `Len() = 1 = N` in which `"b"` is absent; there `Set("b", 3)` does not
return: evicting the entry overwritten by the second call panics on the type assertion
of `removeOldest`, with both keys still in the cache. -/
theorem C1_set_panics_on_overwritten_oldest :
    runOps (NewLru 1 : LRU Int) [.set "a" 1, .set "a" 2]
        = some { items := [("a", 2)], keyList := [⟨"a", false⟩], maxSize := 1, currentSize := 1 } ∧
      Len ({ items := [("a", 2)], keyList := [⟨"a", false⟩], maxSize := 1, currentSize := 1 }
        : LRU Int) = 1 ∧
      List.lookup "b" [("a", (2 : Int))] = none ∧
      Set ({ items := [("a", 2)], keyList := [⟨"a", false⟩], maxSize := 1, currentSize := 1 }
        : LRU Int) "b" 3
        = .panicked { items := [("b", 3), ("a", 2)], keyList := [⟨"b", true⟩, ⟨"a", false⟩],
                      maxSize := 1, currentSize := 2 } := by
  decide

/-- C2, counterexample: on the cache `NewLru(0)` the call `Set("a", 7)` returns `true`
and leaves the cache empty, and the following `Get("a")` returns `(0, false)`. -/
theorem C2_capacity_zero_counterexample :
    Set (NewLru 0 : LRU Int) "a" 7 = .ok true (NewLru 0) ∧
      (Get (NewLru 0 : LRU Int) "a").1 = (0, false) := by
  decide

/-- C2, amended: in every state reachable from `NewLru(N)` with `N ≥ 1`, for every key
and value, if the key is present, or the cache is not full, or the least recently used
entry has not been overwritten since its insertion, then `Set(k, v)` returns `true` and
an immediately following `Get(k)` returns `(v, true)`. -/
theorem C2_set_then_get [Inhabited V] (N : Int) (hN : 1 ≤ N) (lru : LRU V)
    (hr : Reachable N lru) (k : String) (v : V)
    (hsafe : (lru.items.lookup k).isSome = true ∨ Len lru < N ∨ backHoldsString lru = false) :
    ∃ lru1, Set lru k v = .ok true lru1 ∧ (Get lru1 k).1 = (v, true) := by
  obtain ⟨lru1, h1, h2⟩ := set_returns (by omega) (inv_of_reachable hr) k v hsafe
  exact ⟨lru1, h1, get_fst_of_lookup lru1 k v (h2 (by omega))⟩

/-- Witness of `C2_set_then_get`: a full cache of capacity 2 whose oldest entry still
holds its item. -/
theorem C2_set_then_get_witness :
    (1 : Int) ≤ 2 ∧
      Reachable 2 ({ items := [("b", 2), ("a", 1)], keyList := [⟨"b", true⟩, ⟨"a", true⟩],
                     maxSize := 2, currentSize := 2 } : LRU Int) ∧
      (∃ lru1, Set ({ items := [("b", 2), ("a", 1)], keyList := [⟨"b", true⟩, ⟨"a", true⟩],
                      maxSize := 2, currentSize := 2 } : LRU Int) "c" 3 = .ok true lru1 ∧
        (Get lru1 "c").1 = (3, true)) :=
  ⟨by decide, ⟨[.set "a" 1, .set "b" 2], by decide⟩,
    C2_set_then_get 2 (by decide) _ ⟨[.set "a" 1, .set "b" 2], by decide⟩ "c" 3
      (Or.inr (Or.inr (by decide)))⟩

/-- C3, counterexample: on `NewLru(-1)` the sequence consisting of `Remove("a")` returns
and leaves `Len() = 0`, which exceeds `MaxStorage() = -1`. -/
theorem C3_negative_capacity_counterexample :
    runOps (NewLru (-1) : LRU Int) [.remove "a"] = some (NewLru (-1)) ∧
      ¬ Len (NewLru (-1) : LRU Int) ≤ MaxStorage (NewLru (-1) : LRU Int) := by
  decide

/-- C3, amended: for `N ≥ 0`, after every prefix of a sequence of operations on
`NewLru(N)` in which every call returns, `Len() ≤ MaxStorage()` and `MaxStorage() = N`.
The sequence may hold `Get` calls besides `Set` and `Remove`. -/
theorem C3_len_le_maxStorage [Inhabited V] (N : Int) (hN : 0 ≤ N) (ops : List (Op V))
    (n : Nat) (lru : LRU V) (h : runOps (NewLru N) (ops.take n) = some lru) :
    Len lru ≤ MaxStorage lru ∧ MaxStorage lru = N := by
  have hinv := inv_runOps (ops.take n) (inv_new N) h
  refine ⟨?_, hinv.max⟩
  show (lru.keyList.length : Int) ≤ lru.maxSize
  rw [← hinv.wf.size]
  rcases hinv.bound with hb | hb
  · exact hb
  · rw [hb, hinv.max]
    exact hN

/-- Witness of `C3_len_le_maxStorage`: three insertions and a removal on a cache of
capacity 2, observed after the third call. -/
theorem C3_len_le_maxStorage_witness :
    (0 : Int) ≤ 2 ∧
      runOps (NewLru 2 : LRU Int)
          (([.set "a" 1, .set "b" 2, .set "c" 3, .remove "b"] : List (Op Int)).take 3)
        = some { items := [("c", 3), ("b", 2)], keyList := [⟨"c", true⟩, ⟨"b", true⟩],
                 maxSize := 2, currentSize := 2 } ∧
      Len ({ items := [("c", 3), ("b", 2)], keyList := [⟨"c", true⟩, ⟨"b", true⟩],
             maxSize := 2, currentSize := 2 } : LRU Int)
        ≤ MaxStorage ({ items := [("c", 3), ("b", 2)], keyList := [⟨"c", true⟩, ⟨"b", true⟩],
                        maxSize := 2, currentSize := 2 } : LRU Int) ∧
      MaxStorage ({ items := [("c", 3), ("b", 2)], keyList := [⟨"c", true⟩, ⟨"b", true⟩],
                    maxSize := 2, currentSize := 2 } : LRU Int) = 2 :=
  ⟨by decide, by decide,
    C3_len_le_maxStorage 2 (by decide) [.set "a" 1, .set "b" 2, .set "c" 3, .remove "b"] 3 _
      (by decide)⟩

/-- C4, counterexample: capacity 2, keys `"a"`, `"b"`, `"c"` set in this order with a
`Get("a")` before the last `Set` (right after the first one).  The absent key is the
first-inserted `"a"`; the second-inserted `"b"` is still present. -/
theorem C4_early_get_counterexample :
    runOps (NewLru 2 : LRU Int) [.set "a" 1, .get "a", .set "b" 2, .set "c" 3]
        = some { items := [("c", 3), ("b", 2)], keyList := [⟨"c", true⟩, ⟨"b", true⟩],
                 maxSize := 2, currentSize := 2 } ∧
      List.lookup "a" [("c", (3 : Int)), ("b", 2)] = none ∧
      List.lookup "b" [("c", (3 : Int)), ("b", 2)] = some 2 := by
  decide

/-- C4, amended.  Capacity `N ≥ 1`; `pre` is any interleaving of `Get` calls with `Set`
calls on `N` distinct keys, followed by `Set` on one more key `kN` and by further `Get`
calls `post`.  The run returns, and exactly one of the `N+1` keys is absent afterwards:
the key `e` whose last `Set` or `Get` in `pre` is oldest.  With no `Get` in `pre` it is
the first key set.  If `Get` is called on the first key after the second key was set
(before the last `Set`) and never on the second key, it is the second key set. -/
theorem C4_eviction_follows_last_use [Inhabited V] (N : Int) (hN : 1 ≤ N)
    (pre post : List (Op V)) (kN : String) (vN : V)
    (hpre : ∀ op ∈ pre, Op.isRemove op = false)
    (hpost : ∀ op ∈ post, Op.isGet op = true)
    (hdistinct : (setKeys pre ++ [kN]).Nodup)
    (hcount : ((setKeys pre).length : Int) = N) :
    ∃ lru e, runOps (NewLru N) (pre ++ Op.set kN vN :: post) = some lru ∧
      e ∈ setKeys pre ∧
      (∀ k ∈ setKeys pre, k ≠ e → lastUse e pre < lastUse k pre) ∧
      (∀ k ∈ setKeys pre ++ [kN], lru.items.lookup k = none ↔ k = e) ∧
      ((∀ op ∈ pre, Op.isGet op = false) → (setKeys pre).head? = some e) ∧
      (∀ a mid k0 k1 v1, pre = a ++ Op.set k1 v1 :: mid → setKeys a = [k0] →
        Op.get k0 ∈ mid → (∀ op ∈ mid, op ≠ Op.get k1) → e = k1) := by
  obtain ⟨lru, e, hrun, he, hmin, habs⟩ :=
    evict_after_tracks N hN pre post kN vN hpre hpost hdistinct hcount
  have hnd : (setKeys pre).Nodup := (List.nodup_append.1 hdistinct).1
  refine ⟨lru, e, hrun, he, hmin, habs, ?_, ?_⟩
  · intro hsets
    exact oldest_is_first pre e hpre hsets hnd he hmin
  · intro a mid k0 k1 v1 hsplit ha hget hno
    exact oldest_is_second pre a mid e k0 k1 v1 hsplit ha hget hno hnd he hmin

/-- Witness of `C4_eviction_follows_last_use`: capacity 2, `Set("a")`, `Set("b")`,
`Get("a")`, `Set("c")`, then `Get("b")`. -/
theorem C4_eviction_follows_last_use_witness :
    (1 : Int) ≤ 2 ∧
      (setKeys ([.set "a" 1, .set "b" 2, .get "a"] : List (Op Int)) ++ ["c"]).Nodup ∧
      ∃ lru e, runOps (NewLru 2 : LRU Int)
          ([.set "a" 1, .set "b" 2, .get "a"] ++ Op.set "c" 3 :: [.get "b"]) = some lru ∧
        e ∈ setKeys ([.set "a" 1, .set "b" 2, .get "a"] : List (Op Int)) :=
  ⟨by decide, by decide,
    let ⟨lru, e, h1, h2, _⟩ :=
      C4_eviction_follows_last_use 2 (by decide) [.set "a" 1, .set "b" 2, .get "a"]
        [.get "b"] "c" (3 : Int) (by decide) (by decide) (by decide) (by decide)
    ⟨lru, e, h1, h2⟩⟩

/-- C5: in every reachable state, `Remove(k)` on a present key returns `(v, true)`,
lowers `Len()` by one and makes the next `Get(k)` return `(zero, false)` without
changing the cache; on an absent key it returns `(zero, false)` and changes nothing.
In both cases every other key keeps its value, and the recency list afterwards is the
list before with `k` taken out, so the order of the other keys is unchanged. -/
theorem C5_remove [Inhabited V] (N : Int) (lru : LRU V) (hr : Reachable N lru)
    (k : String) :
    (∀ v, lru.items.lookup k = some v →
        (Remove lru k).1 = (v, true) ∧
        Len (Remove lru k).2 = Len lru - 1 ∧
        Get (Remove lru k).2 k = ((default, false), (Remove lru k).2)) ∧
      (lru.items.lookup k = none → Remove lru k = ((default, false), lru)) ∧
      (∀ k1, k1 ≠ k → (Remove lru k).2.items.lookup k1 = lru.items.lookup k1) ∧
      (Remove lru k).2.keyList.map Elem.key
        = (lru.keyList.map Elem.key).filter (fun x => x != k) := by
  have hinv := inv_of_reachable hr
  refine ⟨?_, ?_, ?_, ?_⟩
  · intro v hv
    have hk : k ∈ lru.keyList.map Elem.key :=
      (hinv.wf.sameKeys k).1 (mem_of_lookup_isSome k _ (by simp [hv]))
    have hrem : Remove lru k = ((v, true),
        { lru with items := mapDelete k lru.items, keyList := listRemove k lru.keyList,
                   currentSize := lru.currentSize - 1 }) := by
      simp [Remove, hv]
    rw [hrem]
    refine ⟨rfl, ?_, ?_⟩
    · show ((listRemove k lru.keyList).length : Int) = (lru.keyList.length : Int) - 1
      have h1 : (listRemove k lru.keyList).length = lru.keyList.length - 1 := by
        have := List.length_erase_of_mem hk
        simpa [← keys_listRemove] using this
      have h2 : 0 < lru.keyList.length := by
        have := List.length_pos_of_mem hk
        simpa using this
      omega
    · exact get_of_lookup_none _ k (lookup_mapDelete_self k lru.items)
  · intro hn
    simp [Remove, hn]
  · intro k1 hk1
    unfold Remove
    cases hl : lru.items.lookup k with
    | none => rfl
    | some v => exact lookup_mapDelete_of_ne k k1 lru.items hk1
  · unfold Remove
    cases hl : lru.items.lookup k with
    | none =>
      have hk : k ∉ lru.keyList.map Elem.key := fun hm =>
        (lookup_eq_none_iff_not_mem k _).1 hl ((hinv.wf.sameKeys k).2 hm)
      show lru.keyList.map Elem.key = _
      rw [← hinv.wf.keysNodup.erase_eq_filter, List.erase_of_not_mem hk]
    | some v =>
      show (listRemove k lru.keyList).map Elem.key = _
      rw [keys_listRemove, hinv.wf.keysNodup.erase_eq_filter]

/-- Witness of `C5_remove`: removing the older of two entries. -/
theorem C5_remove_witness :
    Reachable 2 ({ items := [("b", 2), ("a", 1)], keyList := [⟨"b", true⟩, ⟨"a", true⟩],
                   maxSize := 2, currentSize := 2 } : LRU Int) ∧
      (Remove ({ items := [("b", 2), ("a", 1)], keyList := [⟨"b", true⟩, ⟨"a", true⟩],
                 maxSize := 2, currentSize := 2 } : LRU Int) "a").1 = (1, true) :=
  ⟨⟨[.set "a" 1, .set "b" 2], by decide⟩,
    ((C5_remove 2 _ ⟨[.set "a" 1, .set "b" 2], by decide⟩ "a").1 1 (by decide)).1⟩

/-- Occupancy along calls that return: in every state reachable from `NewLru(N)`,
`N ≥ 0`, by calls each of which returns, the size counter equals the length of the
recency list, which equals the number of map entries, the map keys being distinct; hence
`RemainingStorage() = MaxStorage() - Len()` and `0 ≤ RemainingStorage() ≤ MaxStorage()`. -/
theorem occupancy_of_returning_calls [Inhabited V] (N : Int) (hN : 0 ≤ N) (lru : LRU V)
    (hr : Reachable N lru) :
    lru.currentSize = (lru.keyList.length : Int) ∧
      lru.keyList.length = lru.items.length ∧
      (lru.items.map Prod.fst).Nodup ∧
      RemainingStorage lru = MaxStorage lru - Len lru ∧
      0 ≤ RemainingStorage lru ∧ RemainingStorage lru ≤ MaxStorage lru := by
  have hinv := inv_of_reachable hr
  have hsz := hinv.wf.size
  have hperm : (lru.items.map Prod.fst).Perm (lru.keyList.map Elem.key) :=
    (List.perm_ext_iff_of_nodup hinv.wf.itemsNodup hinv.wf.keysNodup).2 hinv.wf.sameKeys
  have hlen : lru.keyList.length = lru.items.length := by
    simpa using hperm.length_eq.symm
  have hb : lru.currentSize ≤ lru.maxSize := by
    rcases hinv.bound with h | h
    · exact h
    · rw [h, hinv.max]
      exact hN
  refine ⟨hsz, hlen, hinv.wf.itemsNodup, ?_, ?_, ?_⟩
  · show lru.maxSize - lru.currentSize = lru.maxSize - (lru.keyList.length : Int)
    rw [hsz]
  · show 0 ≤ lru.maxSize - lru.currentSize
    omega
  · show lru.maxSize - lru.currentSize ≤ lru.maxSize
    have : (0 : Int) ≤ (lru.keyList.length : Int) := Int.natCast_nonneg _
    omega

/-- An instance of `occupancy_of_returning_calls`: a cache of capacity 2 after three
insertions. -/
theorem occupancy_of_returning_calls_example :
    (0 : Int) ≤ 2 ∧
      Reachable 2 ({ items := [("c", 3), ("b", 2)], keyList := [⟨"c", true⟩, ⟨"b", true⟩],
                     maxSize := 2, currentSize := 2 } : LRU Int) ∧
      RemainingStorage ({ items := [("c", 3), ("b", 2)],
                          keyList := [⟨"c", true⟩, ⟨"b", true⟩],
                          maxSize := 2, currentSize := 2 } : LRU Int) ≤ 2 :=
  ⟨by decide, ⟨[.set "a" 1, .set "b" 2, .set "c" 3], by decide⟩,
    (occupancy_of_returning_calls 2 (by decide) _
      ⟨[.set "a" 1, .set "b" 2, .set "c" 3], by decide⟩).2.2.2.2.2⟩

/-- C20 (the code fails the claim).  `NewLru(1)`, `Set("a", 1)`, `Set("a", 2)`,
`Set("b", 3)`: the third call raises `currentSize` to 2 and then panics in
`removeOldest` on the entry overwritten by the second call.  In the cache it leaves, the
size counter, the list length and the number of map entries agree at 2 while
`MaxStorage() = 1`, so `Len() = 2`, `RemainingStorage() = MaxStorage() - Len()` still
holds, but `RemainingStorage() = -1 < 0`.  Later calls find the cache in this state: a
following `Get("b")` returns `(3, true)` and leaves `RemainingStorage() = -1`. -/
theorem C20_remaining_storage_negative_after_panic :
    ∃ s1 s2 : LRU Int,
      runOps (NewLru 1 : LRU Int) [.set "a" 1, .set "a" 2] = some s1 ∧
      Set s1 "b" 3 = .panicked s2 ∧
      s2.currentSize = 2 ∧ s2.keyList.length = 2 ∧ s2.items.length = 2 ∧
      MaxStorage s2 = 1 ∧ Len s2 = 2 ∧
      RemainingStorage s2 = MaxStorage s2 - Len s2 ∧
      RemainingStorage s2 = -1 ∧ ¬ (0 ≤ RemainingStorage s2) ∧
      (Get s2 "b").1 = (3, true) ∧ RemainingStorage (Get s2 "b").2 = -1 :=
  ⟨{ items := [("a", 2)], keyList := [⟨"a", false⟩], maxSize := 1, currentSize := 1 },
    { items := [("b", 3), ("a", 2)], keyList := [⟨"b", true⟩, ⟨"a", false⟩],
      maxSize := 1, currentSize := 2 },
    by decide⟩

/-! ## Which entries a `Set` leaves in the map -/

theorem lookup_of_lookup_mapDelete (key k : String) (x : V) (items : List (String × V))
    (h : (mapDelete key items).lookup k = some x) : items.lookup k = some x := by
  by_cases hk : k = key
  · subst hk
    rw [lookup_mapDelete_self] at h
    cases h
  · rwa [lookup_mapDelete_of_ne key k items hk] at h

theorem removeOldest_lookup (lru lru1 : LRU V) (u : Unit)
    (h : removeOldest lru = .ok u lru1) (k : String) (x : V)
    (hk : lru1.items.lookup k = some x) : lru.items.lookup k = some x := by
  unfold removeOldest at h
  split_ifs at h with h0
  · simp only [Outcome.ok.injEq, true_and] at h
    rwa [← h] at hk
  · cases hl : lru.keyList.getLast? with
    | none =>
      simp only [hl, Outcome.ok.injEq, true_and] at h
      rwa [← h] at hk
    | some e =>
      cases he : e.isItem with
      | false => simp [hl, he] at h
      | true =>
        simp only [hl, he, if_true, Outcome.ok.injEq, true_and] at h
        rw [← h] at hk
        by_cases hm : (lru.items.lookup e.key).isSome = true
        · simp only [hm, if_true] at hk
          exact lookup_of_lookup_mapDelete e.key k x lru.items hk
        · simp only [hm, Bool.false_eq_true, if_false] at hk
          exact hk

theorem evictLoop_lookup (fuel : Nat) :
    ∀ (lru lru1 : LRU V) (u : Unit), evictLoop fuel lru = .ok u lru1 →
      ∀ (k : String) (x : V), lru1.items.lookup k = some x → lru.items.lookup k = some x := by
  induction fuel with
  | zero =>
    intro lru lru1 u h k x hk
    simp only [evictLoop] at h
    split_ifs at h
    simp only [Outcome.ok.injEq, true_and] at h
    rwa [← h] at hk
  | succ n ih =>
    intro lru lru1 u h k x hk
    simp only [evictLoop] at h
    split_ifs at h
    · cases hr : removeOldest lru with
      | ok u1 lru2 =>
        rw [hr] at h
        exact removeOldest_lookup lru lru2 u1 hr k x (ih lru2 lru1 u h k x hk)
      | panicked lru2 => rw [hr] at h; cases h
      | diverges lru2 => rw [hr] at h; cases h
    · simp only [Outcome.ok.injEq, true_and] at h
      rwa [← h] at hk

/-- After a `Set(k, v)` that returns, an entry of the map is either the entry `(k, v)`
or an entry of another key that was there before. -/
theorem set_lookup (lru lru1 : LRU V) (k : String) (v : V) (b : Bool)
    (h : Set lru k v = .ok b lru1) (k1 : String) (x : V)
    (hk : lru1.items.lookup k1 = some x) :
    (k1 = k ∧ x = v) ∨ (k1 ≠ k ∧ lru.items.lookup k1 = some x) := by
  cases hl : lru.items.lookup k with
  | some w =>
    rw [set_existing lru k v w hl] at h
    simp only [Outcome.ok.injEq] at h
    rw [← h.2] at hk
    by_cases hkk : k1 = k
    · subst hkk
      rw [lookup_mapAssign_self k1 v lru.items (by simp [hl])] at hk
      exact Or.inl ⟨rfl, (Option.some.inj hk).symm⟩
    · rw [lookup_mapAssign_of_ne k k1 v lru.items hkk] at hk
      exact Or.inr ⟨hkk, hk⟩
  | none =>
    simp only [Set, hl] at h
    cases he : evictLoop (({ key := k, isItem := true } : Elem) :: lru.keyList).length.succ
        ({ lru with
            keyList := { key := k, isItem := true } :: lru.keyList
            items := (k, v) :: lru.items
            currentSize := lru.currentSize + 1 } : LRU V) with
    | ok u lru2 =>
      rw [he] at h
      simp only [Outcome.ok.injEq] at h
      rw [← h.2] at hk
      have hk2 := evictLoop_lookup _ _ lru2 u he k1 x hk
      by_cases hkk : k1 = k
      · subst hkk
        simp only [List.lookup_cons_self, Option.some.injEq] at hk2
        exact Or.inl ⟨rfl, hk2.symm⟩
      · rw [lookup_cons_of_ne k1 k v lru.items hkk] at hk2
        exact Or.inr ⟨hkk, hk2⟩
    | panicked lru2 => rw [he] at h; cases h
    | diverges lru2 => rw [he] at h; cases h

end Cache

/-! # Properties of the decision engine -/

namespace Waf

open Cache

/-! ## Rule evaluation -/

theorem evalRule_cache (lib : StdLib) (w : RuleCacheWAF) (c : LRU Int) (ruleID : Int)
    (r : Request) : evalRule lib { w with Cache := c } ruleID r = evalRule lib w ruleID r :=
  rfl

theorem prettyJSON_false (lib : StdLib) (r r1 : Request)
    (h : PrettyJSONFingerprinting lib r = (false, r1)) : r1 = r := by
  unfold PrettyJSONFingerprinting at h
  obtain ⟨pm, host, addr, hdr, ⟨pending, failing⟩, tls⟩ := r
  cases failing with
  | true => simp at h
  | false =>
    simp only [Bool.false_eq_true, if_false] at h
    cases hu : lib.Unmarshal pending with
    | none => simp [hu] at h
    | some j =>
      cases hm : lib.MarshalIndent j with
      | none => simp [hu, hm] at h
      | some pj =>
        simp only [hu, hm, Prod.mk.injEq] at h
        exact h.2.symm

theorem prettyJSON_remoteAddr (lib : StdLib) (r : Request) :
    (PrettyJSONFingerprinting lib r).2.RemoteAddr = r.RemoteAddr := by
  unfold PrettyJSONFingerprinting
  split
  · rfl
  · dsimp only
    split
    · rfl
    · split <;> rfl

theorem evalRule_false (lib : StdLib) (w : RuleCacheWAF) (ruleID : Int) (r r1 : Request)
    (h : evalRule lib w ruleID r = some (false, r1)) : r1 = r := by
  unfold evalRule at h
  split_ifs at h with h0 h1 h2 h3
  · simp only [Option.some.injEq, Prod.mk.injEq] at h
    exact h.2.symm
  · simp only [Option.some.injEq, Prod.mk.injEq] at h
    exact h.2.symm
  · simp only [Option.some.injEq] at h
    exact prettyJSON_false lib r r1 h
  · simp only [Option.map_eq_some', Prod.mk.injEq] at h
    obtain ⟨_, _, _, h4⟩ := h
    exact h4.symm
  · simp only [Option.some.injEq, Prod.mk.injEq] at h
    exact h.2.symm

theorem evalRule_remoteAddr (lib : StdLib) (w : RuleCacheWAF) (ruleID : Int)
    (r r1 : Request) (b : Bool) (h : evalRule lib w ruleID r = some (b, r1)) :
    r1.RemoteAddr = r.RemoteAddr := by
  unfold evalRule at h
  split_ifs at h with h0 h1 h2 h3
  · simp only [Option.some.injEq, Prod.mk.injEq] at h
    rw [← h.2]
  · simp only [Option.some.injEq, Prod.mk.injEq] at h
    rw [← h.2]
  · simp only [Option.some.injEq] at h
    have := prettyJSON_remoteAddr lib r
    rw [h] at this
    exact this
  · simp only [Option.map_eq_some', Prod.mk.injEq] at h
    obtain ⟨_, _, _, h4⟩ := h
    rw [← h4]
  · simp only [Option.some.injEq, Prod.mk.injEq] at h
    rw [← h.2]

theorem evalRule_of_verdict_false (lib : StdLib) (w : RuleCacheWAF) (ruleID : Int)
    (r : Request) (h : verdict lib w ruleID r = some false) :
    evalRule lib w ruleID r = some (false, r) := by
  unfold verdict at h
  cases he : evalRule lib w ruleID r with
  | none => simp [he] at h
  | some p =>
    obtain ⟨b, r1⟩ := p
    simp only [he, Option.map_some', Option.some.injEq] at h
    subst h
    rw [evalRule_false lib w ruleID r r1 he]

theorem applyRule_false (lib : StdLib) (w : RuleCacheWAF) (ruleID : Int) (r : Request)
    (h : verdict lib w ruleID r = some false) :
    applyRule lib w ruleID r = .ok false (w, r) := by
  simp [applyRule, evalRule_of_verdict_false lib w ruleID r h]

theorem applyRule_true_ok (lib : StdLib) (w : RuleCacheWAF) (ruleID : Int) (r r1 : Request)
    (b : Bool) (c : LRU Int) (h : evalRule lib w ruleID r = some (true, r1))
    (hs : Cache.Set w.Cache r.RemoteAddr ruleID = .ok b c) :
    applyRule lib w ruleID r = .ok true ({ w with Cache := c }, r1) := by
  simp [applyRule, h, hs]

theorem applyRule_true_panicked (lib : StdLib) (w : RuleCacheWAF) (ruleID : Int)
    (r r1 : Request) (c : LRU Int) (h : evalRule lib w ruleID r = some (true, r1))
    (hs : Cache.Set w.Cache r.RemoteAddr ruleID = .panicked c) :
    applyRule lib w ruleID r = .panicked ({ w with Cache := c }, r1) := by
  simp [applyRule, h, hs]

/-- A call of `applyRule` that returns `false` changes neither the aggregate nor the
request. -/
theorem applyRule_ok_false (lib : StdLib) (w w1 : RuleCacheWAF) (ruleID : Int)
    (r r1 : Request) (h : applyRule lib w ruleID r = .ok false (w1, r1)) :
    w1 = w ∧ r1 = r := by
  unfold applyRule at h
  cases he : evalRule lib w ruleID r with
  | none => simp [he] at h
  | some p =>
    obtain ⟨b, r2⟩ := p
    cases b with
    | true =>
      simp only [he, if_true] at h
      cases hs : Cache.Set w.Cache r.RemoteAddr ruleID <;> simp [hs] at h
    | false =>
      simp only [he, Bool.false_eq_true, if_false, Outcome.ok.injEq, Prod.mk.injEq,
        true_and] at h
      exact ⟨h.1.symm, by rw [← h.2]; exact evalRule_false lib w ruleID r r2 he⟩

/-! ## The sweep -/

theorem sweep_no_match (lib : StdLib) (rules : List Rule) :
    ∀ c : Ctx, (∀ q ∈ rules, verdict lib c.waf q.ID c.req = some false) →
      sweep lib rules c = .ok false { c with log := c.log ++ sweepLog rules } := by
  induction rules with
  | nil =>
    intro c _
    simp [sweep, sweepLog]
  | cons rule rest ih =>
    intro c h
    have h1 := applyRule_false lib c.waf rule.ID c.req (h rule (List.mem_cons_self _ _))
    have h2 := ih { waf := c.waf, req := c.req,
                    log := c.log ++ [LogEntry.applyingRule rule.Name rule.ID] }
      (fun q hq => h q (List.mem_cons_of_mem _ hq))
    simp only [sweep, h1, Bool.false_eq_true, if_false, h2]
    simp [sweepLog]

theorem sweep_first_match (lib : StdLib) (pre post : List Rule) (rule : Rule)
    (r1 : Request) (b : Bool) (cache1 : LRU Int) :
    ∀ c : Ctx, (∀ q ∈ pre, verdict lib c.waf q.ID c.req = some false) →
      evalRule lib c.waf rule.ID c.req = some (true, r1) →
      Cache.Set c.waf.Cache c.req.RemoteAddr rule.ID = .ok b cache1 →
      sweep lib (pre ++ rule :: post) c
        = .ok true { waf := { c.waf with Cache := cache1 }, req := r1,
                     log := c.log ++ sweepLog (pre ++ [rule]) } := by
  induction pre with
  | nil =>
    intro c _ he hs
    have h1 := applyRule_true_ok lib c.waf rule.ID c.req r1 b cache1 he hs
    simp [sweep, h1, sweepLog]
  | cons q pre ih =>
    intro c h he hs
    have h1 := applyRule_false lib c.waf q.ID c.req (h q (List.mem_cons_self _ _))
    have h2 := ih { waf := c.waf, req := c.req,
                    log := c.log ++ [LogEntry.applyingRule q.Name q.ID] }
      (fun q1 hq => h q1 (List.mem_cons_of_mem _ hq)) he hs
    have e : sweep lib ((q :: pre) ++ rule :: post) c
        = sweep lib (pre ++ rule :: post)
            { waf := c.waf, req := c.req,
              log := c.log ++ [LogEntry.applyingRule q.Name q.ID] } := by
      show sweep lib (q :: (pre ++ rule :: post)) c = _
      simp only [sweep, h1, Bool.false_eq_true, if_false]
    rw [e, h2]
    simp [sweepLog]

theorem sweep_first_match_panicked (lib : StdLib) (pre post : List Rule) (rule : Rule)
    (r1 : Request) (cache1 : LRU Int) :
    ∀ c : Ctx, (∀ q ∈ pre, verdict lib c.waf q.ID c.req = some false) →
      evalRule lib c.waf rule.ID c.req = some (true, r1) →
      Cache.Set c.waf.Cache c.req.RemoteAddr rule.ID = .panicked cache1 →
      sweep lib (pre ++ rule :: post) c
        = .panicked { waf := { c.waf with Cache := cache1 }, req := r1,
                      log := c.log ++ sweepLog (pre ++ [rule]) } := by
  induction pre with
  | nil =>
    intro c _ he hs
    have h1 := applyRule_true_panicked lib c.waf rule.ID c.req r1 cache1 he hs
    simp [sweep, h1, sweepLog]
  | cons q pre ih =>
    intro c h he hs
    have h1 := applyRule_false lib c.waf q.ID c.req (h q (List.mem_cons_self _ _))
    have h2 := ih { waf := c.waf, req := c.req,
                    log := c.log ++ [LogEntry.applyingRule q.Name q.ID] }
      (fun q1 hq => h q1 (List.mem_cons_of_mem _ hq)) he hs
    have e : sweep lib ((q :: pre) ++ rule :: post) c
        = sweep lib (pre ++ rule :: post)
            { waf := c.waf, req := c.req,
              log := c.log ++ [LogEntry.applyingRule q.Name q.ID] } := by
      show sweep lib (q :: (pre ++ rule :: post)) c = _
      simp only [sweep, h1, Bool.false_eq_true, if_false]
    rw [e, h2]
    simp [sweepLog]

/-- A sweep that ends with `isMalicious = false` leaves the aggregate and the request
as they were. -/
theorem sweep_ok_false (lib : StdLib) (rules : List Rule) :
    ∀ c c1 : Ctx, sweep lib rules c = .ok false c1 → c1.waf = c.waf ∧ c1.req = c.req := by
  induction rules with
  | nil =>
    intro c c1 h
    simp only [sweep, Outcome.ok.injEq, true_and] at h
    subst h
    exact ⟨rfl, rfl⟩
  | cons rule rest ih =>
    intro c c1 h
    simp only [sweep] at h
    cases ha : applyRule lib c.waf rule.ID c.req with
    | ok b p =>
      obtain ⟨w1, r1⟩ := p
      cases b with
      | true => simp [ha] at h
      | false =>
        simp only [ha, Bool.false_eq_true, if_false] at h
        obtain ⟨hw, hr⟩ := applyRule_ok_false lib c.waf w1 rule.ID c.req r1 ha
        have := ih _ c1 h
        exact ⟨this.1.trans hw, this.2.trans hr⟩
    | panicked p => simp [ha] at h
    | diverges p => simp [ha] at h

/-- When every rule has a verdict and one of them is malicious, the rules split at
the first malicious one. -/
theorem exists_first_match (lib : StdLib) (w : RuleCacheWAF) (r : Request)
    (rules : List Rule) (hdef : ∀ q ∈ rules, verdict lib w q.ID r ≠ none)
    (hmal : ∃ q ∈ rules, verdict lib w q.ID r = some true) :
    ∃ pre rule post, rules = pre ++ rule :: post ∧
      (∀ q ∈ pre, verdict lib w q.ID r = some false) ∧
      verdict lib w rule.ID r = some true := by
  induction rules with
  | nil =>
    obtain ⟨q, hq, _⟩ := hmal
    simp at hq
  | cons q rest ih =>
    cases hv : verdict lib w q.ID r with
    | none => exact absurd hv (hdef q (List.mem_cons_self _ _))
    | some b =>
      cases b with
      | true => exact ⟨[], q, rest, rfl, by simp, hv⟩
      | false =>
        have hmal1 : ∃ q1 ∈ rest, verdict lib w q1.ID r = some true := by
          obtain ⟨q1, hq1, hv1⟩ := hmal
          rcases List.mem_cons.1 hq1 with h | h
          · rw [h, hv] at hv1
            simp at hv1
          · exact ⟨q1, h, hv1⟩
        obtain ⟨pre, rule, post, hsplit, hpre, hrule⟩ :=
          ih (fun q1 hq1 => hdef q1 (List.mem_cons_of_mem _ hq1)) hmal1
        refine ⟨q :: pre, rule, post, by rw [hsplit]; rfl, ?_, hrule⟩
        intro q1 hq1
        rcases List.mem_cons.1 hq1 with h | h
        · rw [h]
          exact hv
        · exact hpre q1 h

theorem evalRule_of_verdict_true (lib : StdLib) (w : RuleCacheWAF) (ruleID : Int)
    (r : Request) (h : verdict lib w ruleID r = some true) :
    ∃ r1, evalRule lib w ruleID r = some (true, r1) := by
  unfold verdict at h
  cases he : evalRule lib w ruleID r with
  | none => simp [he] at h
  | some p =>
    obtain ⟨b, r1⟩ := p
    simp only [he, Option.map_some', Option.some.injEq] at h
    subst h
    exact ⟨r1, rfl⟩

/-! ## The decision engine -/

theorem decisionEngine_miss (lib : StdLib) (w : RuleCacheWAF) (r : Request)
    (h : w.Cache.items.lookup r.RemoteAddr = none) :
    decisionEngine lib w r = fullSweep lib { waf := w, req := r, log := [] } := by
  simp [decisionEngine, Cache.Get, h]

theorem decisionEngine_hit_block (lib : StdLib) (w : RuleCacheWAF) (r r1 : Request)
    (i : Int) (h : w.Cache.items.lookup r.RemoteAddr = some i)
    (he : evalRule lib w i r = some (true, r1)) :
    decisionEngine lib w r = .ok (.written 403 blockBody)
      { waf := { w with Cache :=
          { w.Cache with
            items := mapAssign r.RemoteAddr i w.Cache.items
            keyList := moveToFront r.RemoteAddr
              (storeKeyString r.RemoteAddr (moveToFront r.RemoteAddr w.Cache.keyList)) } }
        req := r1
        log := [LogEntry.applyingCachedRule i, LogEntry.blockedUsingCache r.RemoteAddr] } := by
  have hs := set_existing
    ({ w.Cache with keyList := moveToFront r.RemoteAddr w.Cache.keyList } : LRU Int)
    r.RemoteAddr i i h
  have ha := applyRule_true_ok lib
    { w with Cache := { w.Cache with keyList := moveToFront r.RemoteAddr w.Cache.keyList } }
    i r r1 true _ he hs
  have hr := evalRule_remoteAddr lib w i r r1 true he
  simp only [decisionEngine, Cache.Get, h, ha, if_true, hr]
  rfl

theorem decisionEngine_hit_pass (lib : StdLib) (w : RuleCacheWAF) (r : Request)
    (i : Int) (h : w.Cache.items.lookup r.RemoteAddr = some i)
    (hv : verdict lib w i r = some false) :
    decisionEngine lib w r = fullSweep lib
      { waf := { w with Cache :=
          { w.Cache with keyList := moveToFront r.RemoteAddr w.Cache.keyList } }
        req := r
        log := [LogEntry.applyingCachedRule i] } := by
  have ha := applyRule_false lib
    { w with Cache := { w.Cache with keyList := moveToFront r.RemoteAddr w.Cache.keyList } }
    i r hv
  simp only [decisionEngine, Cache.Get, h, ha, Bool.false_eq_true, if_false]

theorem decisionEngine_hit_panicked (lib : StdLib) (w : RuleCacheWAF) (r : Request)
    (i : Int) (h : w.Cache.items.lookup r.RemoteAddr = some i)
    (he : evalRule lib w i r = none) :
    decisionEngine lib w r = .panicked
      { waf := { w with Cache :=
          { w.Cache with keyList := moveToFront r.RemoteAddr w.Cache.keyList } }
        req := r
        log := [LogEntry.applyingCachedRule i] } := by
  have he1 : evalRule lib
      { w with Cache := { w.Cache with keyList := moveToFront r.RemoteAddr w.Cache.keyList } }
      i r = none := he
  simp only [decisionEngine, Cache.Get, h, applyRule, he1]

theorem fullSweep_forwarded (lib : StdLib) (c c1 : Ctx) (r1 : Request)
    (h : fullSweep lib c = .ok (.forwarded r1) c1) : c1.waf = c.waf := by
  unfold fullSweep at h
  cases hs : sweep lib c.waf.Rules c with
  | ok b c2 =>
    cases b with
    | true => simp [hs] at h
    | false =>
      simp only [hs, Bool.false_eq_true, if_false, Outcome.ok.injEq] at h
      rw [← h.2]
      exact (sweep_ok_false lib _ c c2 hs).1
  | panicked c2 => simp [hs] at h
  | diverges c2 => simp [hs] at h

/-- The full sweep answers with a block when every rule has a verdict, one of them is
malicious and the cache write goes through. -/
theorem fullSweep_block (lib : StdLib) (c : Ctx) (N : Int) (hN : 0 ≤ N)
    (hinv : Inv N c.waf.Cache)
    (hdef : ∀ q ∈ c.waf.Rules, verdict lib c.waf q.ID c.req ≠ none)
    (hmal : ∃ q ∈ c.waf.Rules, verdict lib c.waf q.ID c.req = some true)
    (hsafe : (c.waf.Cache.items.lookup c.req.RemoteAddr).isSome = true ∨
      Len c.waf.Cache < N ∨ backHoldsString c.waf.Cache = false) :
    ∃ c1, fullSweep lib c = .ok (.written 403 blockBody) c1 := by
  obtain ⟨pre, rule, post, hsplit, hpre, hrule⟩ :=
    exists_first_match lib c.waf c.req c.waf.Rules hdef hmal
  obtain ⟨r1, he⟩ := evalRule_of_verdict_true lib c.waf rule.ID c.req hrule
  obtain ⟨cache1, hset, _⟩ := set_returns hN hinv c.req.RemoteAddr rule.ID hsafe
  have hsw := sweep_first_match lib pre post rule r1 true cache1 c hpre he hset
  unfold fullSweep
  rw [hsplit, hsw]
  exact ⟨_, rfl⟩

/-- The full sweep answers with a block when some rule is malicious, the rules before it
have a verdict and the cache write goes through; the rules after it are not evaluated. -/
theorem fullSweep_block_of_prefix (lib : StdLib) (c : Ctx) (N : Int) (hN : 0 ≤ N)
    (hinv : Inv N c.waf.Cache) (pre post : List Rule) (rule : Rule)
    (hsplit : c.waf.Rules = pre ++ rule :: post)
    (hmal : verdict lib c.waf rule.ID c.req = some true)
    (hdef : ∀ q ∈ pre, verdict lib c.waf q.ID c.req ≠ none)
    (hsafe : (c.waf.Cache.items.lookup c.req.RemoteAddr).isSome = true ∨
      Len c.waf.Cache < N ∨ backHoldsString c.waf.Cache = false) :
    ∃ c1, fullSweep lib c = .ok (.written 403 blockBody) c1 := by
  have hdef1 : ∀ q ∈ pre ++ [rule], verdict lib c.waf q.ID c.req ≠ none := by
    intro q hq
    rcases List.mem_append.1 hq with h | h
    · exact hdef q h
    · rw [List.mem_singleton] at h
      rw [h, hmal]
      simp
  obtain ⟨pre1, rule1, post1, hsplit1, hpre1, hrule1⟩ :=
    exists_first_match lib c.waf c.req (pre ++ [rule]) hdef1
      ⟨rule, List.mem_append_right _ (List.mem_singleton_self _), hmal⟩
  obtain ⟨r1, he⟩ := evalRule_of_verdict_true lib c.waf rule1.ID c.req hrule1
  obtain ⟨cache1, hset, _⟩ := set_returns hN hinv c.req.RemoteAddr rule1.ID hsafe
  have hsw := sweep_first_match lib pre1 (post1 ++ post) rule1 r1 true cache1 c hpre1 he hset
  have hrules : c.waf.Rules = pre1 ++ rule1 :: (post1 ++ post) := by
    have e : pre ++ rule :: post = (pre ++ [rule]) ++ post := by simp
    rw [hsplit, e, hsplit1]
    simp
  unfold fullSweep
  rw [hrules, hsw]
  exact ⟨_, rfl⟩

theorem prettyJSON_host (lib : StdLib) (r : Request) (host : String) :
    (PrettyJSONFingerprinting lib { r with Host := host }).1
      = (PrettyJSONFingerprinting lib r).1 := by
  unfold PrettyJSONFingerprinting
  dsimp only
  split
  · rfl
  · split
    · rfl
    · split <;> rfl

/-- No rule reads `r.Host`. -/
theorem verdict_host (lib : StdLib) (w : RuleCacheWAF) (ruleID : Int) (r : Request)
    (host : String) :
    verdict lib w ruleID { r with Host := host } = verdict lib w ruleID r := by
  unfold verdict evalRule
  split_ifs
  · rfl
  · rfl
  · simp only [Option.map_some', prettyJSON_host]
  · simp only [Option.map_map]
    rfl
  · rfl

/-! ## Claims on the decision engine -/

/-- C6 (the code fails the claim).  The gateway with the header rule serves twelve
HTTP/2 requests that lack the required header: two from `10.0.0.1`, one each from
`10.0.0.2` to `10.0.0.10`, all answered, and one from `10.0.0.11`.  The last client has
no cache entry and rule 1 evaluates malicious on its request, yet the engine does not
block: `Cache.Set` panics while evicting the entry of `10.0.0.1`, overwritten by the
fast path of its second request, and the cache is left with 11 entries. -/
theorem C6_full_sweep_panics_on_poisoned_cache :
    serveAll scenarioLib headerGateway
        (["10.0.0.1", "10.0.0.1", "10.0.0.2", "10.0.0.3", "10.0.0.4", "10.0.0.5",
          "10.0.0.6", "10.0.0.7", "10.0.0.8", "10.0.0.9", "10.0.0.10"].map requestFrom)
      = some poisonedHeaderGateway ∧
    poisonedHeaderGateway.Cache.items.lookup "10.0.0.11" = none ∧
    verdict scenarioLib poisonedHeaderGateway 1 (requestFrom "10.0.0.11") = some true ∧
    decisionEngine scenarioLib poisonedHeaderGateway (requestFrom "10.0.0.11")
      = .panicked
          { waf :=
              { poisonedHeaderGateway with
                Cache :=
                  { items := ("10.0.0.11", 1) :: poisonedHeaderGateway.Cache.items
                    keyList := { key := "10.0.0.11", isItem := true } ::
                      poisonedHeaderGateway.Cache.keyList
                    maxSize := 10
                    currentSize := 11 } }
            req := requestFrom "10.0.0.11"
            log := [LogEntry.applyingRule "headers" 1] } := by
  decide

/-- C7: when the cache maps the client to rule `i` and rule `i` evaluates malicious on
the request, the engine answers 403 with the fixed body after evaluating that rule
alone (the log holds the cached-rule line and the block line, no sweep line), and the
cache still maps the client to `i`.  Scenario: client `203.0.113.5` in the blocked subnet
`203.0.113.0/24` is blocked by rule 0 in the sweep of its first request, the cache then
maps it to 0, and its second request is blocked by rule 0 alone. -/
theorem C7_fast_path_blocks (lib : StdLib) (w : RuleCacheWAF) (r : Request) (i : Int)
    (hcached : w.Cache.items.lookup r.RemoteAddr = some i)
    (hmal : verdict lib w i r = some true) :
    (∃ c1, decisionEngine lib w r = .ok (.written 403 blockBody) c1 ∧
      c1.log = [LogEntry.applyingCachedRule i, LogEntry.blockedUsingCache r.RemoteAddr] ∧
      (Cache.Get c1.waf.Cache r.RemoteAddr).1 = (i, true)) ∧
    (∃ c1 c2,
      ProxyHandler scenarioLib subnetGateway (requestFrom "203.0.113.5")
        = .ok (.written 403 blockBody) c1 ∧
      c1.log = [LogEntry.applyingRule "ip" 0, LogEntry.blocked "203.0.113.5"] ∧
      (Cache.Get c1.waf.Cache "203.0.113.5").1 = (0, true) ∧
      ProxyHandler scenarioLib c1.waf (requestFrom "203.0.113.5")
        = .ok (.written 403 blockBody) c2 ∧
      c2.log = [LogEntry.applyingCachedRule 0, LogEntry.blockedUsingCache "203.0.113.5"] ∧
      (Cache.Get c2.waf.Cache "203.0.113.5").1 = (0, true)) := by
  constructor
  · obtain ⟨r1, he⟩ := evalRule_of_verdict_true lib w i r hmal
    refine ⟨_, decisionEngine_hit_block lib w r r1 i hcached he, rfl, ?_⟩
    apply get_fst_of_lookup
    exact lookup_mapAssign_self r.RemoteAddr i w.Cache.items (by simp [hcached])
  · exact ⟨_, _, rfl, by decide, by decide, rfl, by decide, by decide⟩

/-- Witness of `C7_fast_path_blocks`: the second request of the scenario. -/
theorem C7_fast_path_blocks_witness :
    List.lookup "203.0.113.5" [("203.0.113.5", (0 : Int))] = some 0 ∧
      verdict scenarioLib
        { subnetGateway with Cache :=
          { items := [("203.0.113.5", 0)], keyList := [⟨"203.0.113.5", true⟩],
            maxSize := 10, currentSize := 1 } }
        0 (requestFrom "203.0.113.5") = some true ∧
      ∃ c1, decisionEngine scenarioLib
          { subnetGateway with Cache :=
            { items := [("203.0.113.5", 0)], keyList := [⟨"203.0.113.5", true⟩],
              maxSize := 10, currentSize := 1 } }
          (requestFrom "203.0.113.5") = .ok (.written 403 blockBody) c1 ∧
        c1.log = [LogEntry.applyingCachedRule 0, LogEntry.blockedUsingCache "203.0.113.5"] :=
  ⟨by decide, by decide,
    let ⟨c1, h1, h2, _⟩ :=
      (C7_fast_path_blocks scenarioLib
        { subnetGateway with Cache :=
          { items := [("203.0.113.5", 0)], keyList := [⟨"203.0.113.5", true⟩],
            maxSize := 10, currentSize := 1 } }
        (requestFrom "203.0.113.5") 0 (by decide) (by decide)).1
    ⟨c1, h1, h2⟩⟩

/-- C8 (the code fails the claim).  The gateway with the four rules and the blocked
subnet serves two requests from `203.0.113.1` and one each from `203.0.113.2` to
`203.0.113.10`, eleven block responses.  For the next request, from `203.0.113.11`,
which has no cache entry, the full sweep taken without a cache decides for a block by
rule 0, but the engine reaches no decision: it panics in `Cache.Set`. -/
theorem C8_engine_panics_where_sweep_blocks :
    serveAll scenarioLib subnetGateway
        (["203.0.113.1", "203.0.113.1", "203.0.113.2", "203.0.113.3", "203.0.113.4",
          "203.0.113.5", "203.0.113.6", "203.0.113.7", "203.0.113.8", "203.0.113.9",
          "203.0.113.10"].map requestFrom)
      = some poisonedSubnetGateway ∧
    poisonedSubnetGateway.Cache.items.lookup "203.0.113.11" = none ∧
    sweepDecision scenarioLib poisonedSubnetGateway (requestFrom "203.0.113.11")
        poisonedSubnetGateway.Rules
      = some (some { ID := 0, Name := "ip" }) ∧
    ∃ c, decisionEngine scenarioLib poisonedSubnetGateway (requestFrom "203.0.113.11")
      = .panicked c :=
  ⟨by decide, by decide, by decide, _, rfl⟩

/-- C9: when the engine allows a request (it forwards it), the map of the cache and
`Len()` are the same after the request as before, whether or not the client had a cache
entry. -/
theorem C9_allow_leaves_cache_contents (lib : StdLib) (w : RuleCacheWAF) (r r1 : Request)
    (c1 : Ctx) (h : decisionEngine lib w r = .ok (.forwarded r1) c1) :
    c1.waf.Cache.items = w.Cache.items ∧ Len c1.waf.Cache = Len w.Cache := by
  cases hl : w.Cache.items.lookup r.RemoteAddr with
  | none =>
    rw [decisionEngine_miss lib w r hl] at h
    rw [fullSweep_forwarded lib _ c1 r1 h]
    exact ⟨rfl, rfl⟩
  | some i =>
    cases he : evalRule lib w i r with
    | none =>
      rw [decisionEngine_hit_panicked lib w r i hl he] at h
      cases h
    | some p =>
      obtain ⟨b, r2⟩ := p
      cases b with
      | true =>
        rw [decisionEngine_hit_block lib w r r2 i hl he] at h
        simp at h
      | false =>
        have hv : verdict lib w i r = some false := by simp [verdict, he]
        rw [decisionEngine_hit_pass lib w r i hl hv] at h
        rw [fullSweep_forwarded lib _ c1 r1 h]
        refine ⟨rfl, ?_⟩
        show ((moveToFront r.RemoteAddr w.Cache.keyList).length : Int) = _
        rw [length_moveToFront]
        rfl

/-- Witness of `C9_allow_leaves_cache_contents`: a client with a stale entry for the
header rule sends a request that carries the required header. -/
theorem C9_allow_leaves_cache_contents_witness :
    ∃ r1 c1,
      decisionEngine scenarioLib
          { headerGateway with
            Cache := { items := [("10.0.0.1", 1)], keyList := [⟨"10.0.0.1", false⟩],
                       maxSize := 10, currentSize := 1 } }
          { requestFrom "10.0.0.1" with Header := [("User-Agent", ["curl"])] }
        = .ok (.forwarded r1) c1 ∧
      c1.waf.Cache.items = [("10.0.0.1", 1)] ∧
      Len c1.waf.Cache = 1 :=
  ⟨_, _, rfl,
    (C9_allow_leaves_cache_contents scenarioLib
      { headerGateway with
        Cache := { items := [("10.0.0.1", 1)], keyList := [⟨"10.0.0.1", false⟩],
                   maxSize := 10, currentSize := 1 } }
      { requestFrom "10.0.0.1" with Header := [("User-Agent", ["curl"])] } _ _ rfl).1,
    by decide⟩

/-- C10, counterexample: an HTTP/1.1 request that lacks the required header, so that
rule 1 evaluates malicious on it, is forwarded to the origin; no rule is evaluated. -/
theorem C10_http1_request_is_forwarded :
    verdict scenarioLib headerGateway 1 { requestFrom "10.0.0.1" with ProtoMajor := 1 }
        = some true ∧
      ProxyHandler scenarioLib headerGateway { requestFrom "10.0.0.1" with ProtoMajor := 1 }
        = .ok (.forwarded { requestFrom "10.0.0.1" with ProtoMajor := 1 })
            { waf := headerGateway, req := { requestFrom "10.0.0.1" with ProtoMajor := 1 },
              log := [] } := by
  decide

/-- C10, amended: the decision engine runs on the HTTP/2 requests only.  A request
whose `ProtoMajor` is not 2 is forwarded as it came, with no rule evaluated and the
aggregate, cache included, untouched.  For a request with `ProtoMajor = 2`: if some rule
of the RuleSet evaluates malicious on it, every rule before that one in the RuleSet has
a verdict, the rule cached for the client, if any, has a verdict, and the cache is in a
state reachable from `NewLru(N)`, `N ≥ 0`, by calls that returned and can take the write
(the client has an entry, or `Len() < N`, or the oldest entry has not been overwritten),
then the handler answers with status 403 and the fixed body and does not forward. -/
theorem C10_handler_by_protocol_version (lib : StdLib) (w : RuleCacheWAF) (r : Request) :
    (r.ProtoMajor ≠ 2 →
        ProxyHandler lib w r = .ok (.forwarded r) { waf := w, req := r, log := [] }) ∧
      (r.ProtoMajor = 2 →
        ∀ (N : Int) (pre post : List Rule) (rule : Rule),
          0 ≤ N → Reachable N w.Cache →
          w.Rules = pre ++ rule :: post →
          verdict lib w rule.ID r = some true →
          (∀ q ∈ pre, verdict lib w q.ID r ≠ none) →
          (∀ i, w.Cache.items.lookup r.RemoteAddr = some i → verdict lib w i r ≠ none) →
          ((w.Cache.items.lookup r.RemoteAddr).isSome = true ∨ Len w.Cache < N ∨
            backHoldsString w.Cache = false) →
          ∃ c1, ProxyHandler lib w r
            = .ok (.written 403 "Blocked - Client does not meet specified requirements")
                c1) := by
  refine ⟨?_, ?_⟩
  · intro hproto
    unfold ProxyHandler
    rw [if_pos hproto]
  intro hproto N pre post rule hN hcache hsplit hmal hdef hcached hsafe
  have hinv := inv_of_reachable hcache
  have hp : ¬ r.ProtoMajor ≠ 2 := by simp [hproto]
  simp only [ProxyHandler, hp, if_false]
  have hdef1 : ∀ q ∈ pre, verdict lib w q.ID { r with Host := w.OriginHost } ≠ none := by
    intro q hq
    rw [verdict_host]
    exact hdef q hq
  have hmal1 : verdict lib w rule.ID { r with Host := w.OriginHost } = some true := by
    rw [verdict_host]
    exact hmal
  cases hl : w.Cache.items.lookup r.RemoteAddr with
  | none =>
    rw [decisionEngine_miss lib w { r with Host := w.OriginHost } hl]
    exact fullSweep_block_of_prefix lib _ N hN hinv pre post rule hsplit hmal1 hdef1 hsafe
  | some i =>
    have hvi := hcached i hl
    rw [← verdict_host lib w i r w.OriginHost] at hvi
    cases hv : verdict lib w i { r with Host := w.OriginHost } with
    | none => exact absurd hv hvi
    | some b =>
      cases b with
      | true =>
        obtain ⟨r1, he⟩ := evalRule_of_verdict_true lib w i _ hv
        exact ⟨_, decisionEngine_hit_block lib w { r with Host := w.OriginHost } r1 i hl he⟩
      | false =>
        rw [decisionEngine_hit_pass lib w { r with Host := w.OriginHost } i hl hv]
        have hinv1 : Inv N
            ({ w.Cache with keyList := moveToFront r.RemoteAddr w.Cache.keyList } : LRU Int) :=
          ⟨wf_moveToFront hinv.wf r.RemoteAddr, hinv.max, hinv.bound⟩
        exact fullSweep_block_of_prefix lib _ N hN hinv1 pre post rule hsplit hmal1 hdef1
          (Or.inl (by simp [hl]))

/-- Witness of `C10_handler_by_protocol_version`.  An HTTP/1.1 request that lacks the
required header is forwarded.  On a gateway with the header rule followed by the TLS
rule, an HTTP/2 request that lacks the required header and comes from an address
without a captured handshake is answered with 403: the header rule is malicious, and the
TLS rule, which has no verdict on it, is not reached. -/
theorem C10_handler_by_protocol_version_witness :
    ({ requestFrom "10.0.0.2" with ProtoMajor := 1 } : Request).ProtoMajor ≠ 2 ∧
      ProxyHandler scenarioLib headerGateway { requestFrom "10.0.0.2" with ProtoMajor := 1 }
        = .ok (.forwarded { requestFrom "10.0.0.2" with ProtoMajor := 1 })
            { waf := headerGateway, req := { requestFrom "10.0.0.2" with ProtoMajor := 1 },
              log := [] } ∧
      (requestFrom "10.0.0.1").ProtoMajor = 2 ∧
      verdict scenarioLib
          { headerGateway with
            Rules := [{ ID := 1, Name := "headers" }, { ID := 3, Name := "tls" }] }
          1 (requestFrom "10.0.0.1") = some true ∧
      verdict scenarioLib
          { headerGateway with
            Rules := [{ ID := 1, Name := "headers" }, { ID := 3, Name := "tls" }] }
          3 (requestFrom "10.0.0.1") = none ∧
      ∃ c1, ProxyHandler scenarioLib
          { headerGateway with
            Rules := [{ ID := 1, Name := "headers" }, { ID := 3, Name := "tls" }] }
          (requestFrom "10.0.0.1")
        = .ok (.written 403 "Blocked - Client does not meet specified requirements") c1 :=
  ⟨by decide,
    (C10_handler_by_protocol_version scenarioLib headerGateway
      { requestFrom "10.0.0.2" with ProtoMajor := 1 }).1 (by decide),
    rfl, by decide, by decide,
    (C10_handler_by_protocol_version scenarioLib
      { headerGateway with
        Rules := [{ ID := 1, Name := "headers" }, { ID := 3, Name := "tls" }] }
      (requestFrom "10.0.0.1")).2 rfl 10 [] [{ ID := 3, Name := "tls" }]
      { ID := 1, Name := "headers" } (by decide) ⟨[], rfl⟩ rfl (by decide)
      (fun q hq => by simp at hq)
      (fun i h => by simp [headerGateway, NewLru] at h)
      (Or.inr (Or.inl (by decide)))⟩

/-! ## Claims on the handshake registry -/

theorem getClientInfo_lookup_of_ne (w : RuleCacheWAF) (a b : String) (x : ClientHelloInfo)
    (h : b ≠ a) :
    (getClientInfo w a x).clientHelloInfoStore.lookup b = w.clientHelloInfoStore.lookup b := by
  unfold getClientInfo
  split
  · rfl
  · exact lookup_cons_of_ne b a x _ h

theorem getClientInfo_keeps (w : RuleCacheWAF) (a b : String) (i x : ClientHelloInfo)
    (h : w.clientHelloInfoStore.lookup a = some i) :
    (getClientInfo w b x).clientHelloInfoStore.lookup a = some i := by
  by_cases hab : a = b
  · subst hab
    simp [getClientInfo, h]
  · rw [getClientInfo_lookup_of_ne w b a x hab]
    exact h

theorem recordAll_keeps (later : List (String × ClientHelloInfo)) :
    ∀ (w : RuleCacheWAF) (a : String) (i : ClientHelloInfo),
      w.clientHelloInfoStore.lookup a = some i →
      (recordAll w later).clientHelloInfoStore.lookup a = some i := by
  induction later with
  | nil => intro w a i h; exact h
  | cons p rest ih =>
    intro w a i h
    obtain ⟨b, x⟩ := p
    exact ih (getClientInfo w b x) a i (getClientInfo_keeps w a b i x h)

theorem getClientInfo_new (w : RuleCacheWAF) (a : String) (i : ClientHelloInfo)
    (h : w.clientHelloInfoStore.lookup a = none) :
    (getClientInfo w a i).clientHelloInfoStore.lookup a = some i := by
  simp [getClientInfo, h]

theorem getClientInfo_of_some (w : RuleCacheWAF) (a : String) (i x : ClientHelloInfo)
    (h : w.clientHelloInfoStore.lookup a = some i) : getClientInfo w a x = w := by
  simp [getClientInfo, h]

/-- C17: `getClientInfo` (Record) is first-write-wins and idempotent, for every
registry state `w`, address `a` and captures.  When `a` has no entry, after recording
`i1` for `a` any sequence of later captures, for `a` or for other addresses, leaves
`Lookup(a) = i1`.  In every registry state, recording for `a` changes neither the
stored entry nor the `Lookup` of another address, a capture for an address that has an
entry is discarded, and recording the same capture twice gives the same registry as
recording it once. -/
theorem C17_record_first_write_wins (w : RuleCacheWAF) (a : String) :
    (∀ (i1 : ClientHelloInfo) (later : List (String × ClientHelloInfo)),
        w.clientHelloInfoStore.lookup a = none →
        lookupClientHello (recordAll (getClientInfo w a i1) later) a = i1) ∧
      (∀ (x : ClientHelloInfo) (b : String), b ≠ a →
        (getClientInfo w a x).clientHelloInfoStore.lookup b = w.clientHelloInfoStore.lookup b ∧
        lookupClientHello (getClientInfo w a x) b = lookupClientHello w b) ∧
      (∀ (i x : ClientHelloInfo), w.clientHelloInfoStore.lookup a = some i →
        getClientInfo w a x = w) ∧
      (∀ x : ClientHelloInfo,
        getClientInfo (getClientInfo w a x) a x = getClientInfo w a x) := by
  refine ⟨?_, ?_, ?_, ?_⟩
  · intro i1 later habsent
    have h := recordAll_keeps later _ a i1 (getClientInfo_new w a i1 habsent)
    simp [lookupClientHello, h]
  · intro x b hb
    exact ⟨getClientInfo_lookup_of_ne w a b x hb,
      by simp [lookupClientHello, getClientInfo_lookup_of_ne w a b x hb]⟩
  · intro i x h
    exact getClientInfo_of_some w a i x h
  · intro x
    cases h : w.clientHelloInfoStore.lookup a with
    | none => exact getClientInfo_of_some _ a x x (getClientInfo_new w a x h)
    | some i => rw [getClientInfo_of_some w a i x h, getClientInfo_of_some w a i x h]

/-- Witness of `C17_record_first_write_wins`: two captures for one address on the empty
registry of the subnet gateway, and a second capture for an address that has an entry. -/
theorem C17_record_first_write_wins_witness :
    subnetGateway.clientHelloInfoStore.lookup "198.51.100.7" = none ∧
      lookupClientHello
        (recordAll
          (getClientInfo subnetGateway "198.51.100.7"
            { zeroClientHelloInfo with SupportedProtos := ["h2"] })
          [("198.51.100.7", zeroClientHelloInfo), ("198.51.100.8", zeroClientHelloInfo)])
        "198.51.100.7"
        = { zeroClientHelloInfo with SupportedProtos := ["h2"] } ∧
      (getClientInfo subnetGateway "198.51.100.7" safariHello).clientHelloInfoStore.lookup
          "198.51.100.7" = some safariHello ∧
      getClientInfo (getClientInfo subnetGateway "198.51.100.7" safariHello) "198.51.100.7"
          zeroClientHelloInfo
        = getClientInfo subnetGateway "198.51.100.7" safariHello :=
  ⟨by decide,
    (C17_record_first_write_wins subnetGateway "198.51.100.7").1
      { zeroClientHelloInfo with SupportedProtos := ["h2"] }
      [("198.51.100.7", zeroClientHelloInfo), ("198.51.100.8", zeroClientHelloInfo)]
      (by decide),
    by decide,
    (C17_record_first_write_wins (getClientInfo subnetGateway "198.51.100.7" safariHello)
      "198.51.100.7").2.2.1 safariHello zeroClientHelloInfo (by decide)⟩

/-! ## Claims on the rule predicates -/

/-- C15: `IsIPBlocked` returns `true` exactly when the remote address parses as an IP
address and some configured subnet contains that address; for an address that does not
parse it returns `false`.  It is a total function, so it never fails.  Scenario:
`203.0.113.5` with the blocked subnet `203.0.113.0/24` is blocked, while `203.0.114.5`
and the unparsable `203.0.113` are not. -/
theorem C15_ip_blocked_iff (lib : StdLib) (w : RuleCacheWAF) (r : Request) :
    (IsIPBlocked lib w r = true ↔
        ∃ ip, lib.ParseIP r.RemoteAddr = some ip ∧
          ∃ subnet ∈ w.blockedSubnets, lib.Contains subnet ip = true) ∧
      (lib.ParseIP r.RemoteAddr = none → IsIPBlocked lib w r = false) ∧
      IsIPBlocked scenarioLib subnetGateway (requestFrom "203.0.113.5") = true ∧
      IsIPBlocked scenarioLib subnetGateway (requestFrom "203.0.114.5") = false ∧
      IsIPBlocked scenarioLib subnetGateway (requestFrom "203.0.113") = false := by
  refine ⟨?_, ?_, by decide, by decide, by decide⟩
  · unfold IsIPBlocked
    cases hp : lib.ParseIP r.RemoteAddr with
    | none => simp
    | some ip => simp [List.any_eq_true]
  · intro hp
    simp [IsIPBlocked, hp]

theorem headersPresent_eq_true (headers : List (String × List String))
    (expected : List String) :
    headersPresent headers expected = true ↔
      ∀ h ∈ expected, h ∈ headers.map Prod.fst := by
  induction expected with
  | nil => simp [headersPresent]
  | cons h rest ih =>
    simp only [headersPresent, List.mem_cons, forall_eq_or_imp]
    cases hl : headers.lookup h with
    | none =>
      have hn := (lookup_eq_none_iff_not_mem h headers).1 hl
      simp [hn]
    | some v =>
      have hm := mem_of_lookup_isSome h headers (by simp [hl])
      simp [hm, ih]

theorem headersCanonical_eq_true (lib : StdLib) (headers : List (String × List String)) :
    headersCanonical lib headers = true ↔
      ∀ name ∈ headers.map Prod.fst, lib.CanonicalHeaderKey name = name := by
  induction headers with
  | nil => simp [headersCanonical]
  | cons p rest ih =>
    obtain ⟨name, vals⟩ := p
    simp only [headersCanonical, List.map_cons, List.mem_cons, forall_eq_or_imp]
    by_cases hc : lib.CanonicalHeaderKey name = name
    · simp [hc, ih]
    · simp [hc]

/-- C14: `HeaderFingerprinting` returns malicious exactly when some required header name
is not a key of the header map or some key of the header map differs from its canonical
form.  Scenario with the required headers `User-Agent` and `Accept`: a request whose
keys are `user-agent` and `Accept` is malicious, as is one with the keys `User-Agent`,
`Accept` and `x-trace`; the request with the keys `User-Agent` and `Accept` is not. -/
theorem C14_header_fingerprinting_iff (lib : StdLib) (w : RuleCacheWAF) (r : Request) :
    (HeaderFingerprinting lib w r = true ↔
        (∃ h ∈ w.validHeaders, h ∉ r.Header.map Prod.fst) ∨
        (∃ name ∈ r.Header.map Prod.fst, lib.CanonicalHeaderKey name ≠ name)) ∧
      HeaderFingerprinting scenarioLib
          { headerGateway with validHeaders := ["User-Agent", "Accept"] }
          { requestFrom "10.0.0.1" with
            Header := [("user-agent", ["curl"]), ("Accept", ["*/*"])] } = true ∧
      HeaderFingerprinting scenarioLib
          { headerGateway with validHeaders := ["User-Agent", "Accept"] }
          { requestFrom "10.0.0.1" with
            Header := [("User-Agent", ["curl"]), ("Accept", ["*/*"]), ("x-trace", ["1"])] }
        = true ∧
      HeaderFingerprinting scenarioLib
          { headerGateway with validHeaders := ["User-Agent", "Accept"] }
          { requestFrom "10.0.0.1" with
            Header := [("User-Agent", ["curl"]), ("Accept", ["*/*"])] } = false := by
  refine ⟨?_, by decide, by decide, by decide⟩
  have hp := headersPresent_eq_true r.Header w.validHeaders
  have hc := headersCanonical_eq_true lib r.Header
  unfold HeaderFingerprinting
  by_cases h1 : headersPresent r.Header w.validHeaders = true
  · by_cases h2 : headersCanonical lib r.Header = true
    · have h1a := hp.1 h1
      have h2a := hc.1 h2
      simp only [h1, h2, Bool.not_true, Bool.or_self, Bool.false_eq_true, if_false,
        false_iff, not_or, not_exists, not_and, not_not]
      exact ⟨fun h hh => h1a h hh, fun n hn => h2a n hn⟩
    · have h2a : ¬ ∀ name ∈ r.Header.map Prod.fst, lib.CanonicalHeaderKey name = name :=
        fun hall => h2 (hc.2 hall)
      push_neg at h2a
      simp only [Bool.not_eq_true] at h2
      simp only [h1, h2, Bool.not_true, Bool.not_false, Bool.or_true, if_true, true_iff]
      exact Or.inr h2a
  · have h1a : ¬ ∀ h ∈ w.validHeaders, h ∈ r.Header.map Prod.fst :=
      fun hall => h1 (hp.2 hall)
    push_neg at h1a
    simp only [Bool.not_eq_true] at h1
    simp only [h1, Bool.not_false, Bool.true_or, if_true, true_iff]
    exact Or.inl h1a

theorem prettyJSON_fst_false_iff (lib : StdLib) (r : Request) :
    (PrettyJSONFingerprinting lib r).1 = false ↔
      r.Body.failing = false ∧
        ∃ j, lib.Unmarshal r.Body.pending = some j ∧
          lib.MarshalIndent j = some r.Body.pending := by
  unfold PrettyJSONFingerprinting
  cases hf : r.Body.failing with
  | true => simp
  | false =>
    simp only [Bool.false_eq_true, if_false, true_and]
    cases hu : lib.Unmarshal r.Body.pending with
    | none => simp
    | some j =>
      cases hm : lib.MarshalIndent j with
      | none => simp [hm]
      | some pj => simp [hm]

theorem prettyJSON_snd_of_readable (lib : StdLib) (r : Request)
    (h : r.Body.failing = false) : (PrettyJSONFingerprinting lib r).2 = r := by
  have hr : ({ r with Body := { pending := r.Body.pending, failing := false } } : Request)
      = r := by
    obtain ⟨pm, host, addr, hdr, ⟨pending, failing⟩, tls⟩ := r
    simp only at h
    subst h
    rfl
  unfold PrettyJSONFingerprinting
  simp only [h, Bool.false_eq_true, if_false]
  split
  · exact hr
  · split <;> exact hr

/-- C16: the JSON rule returns not malicious exactly when the body can be read, parses
as JSON and equals, byte for byte, the two-space-indented serialization of the parsed
value.  So a body that does not parse is malicious (the empty body among them, for a
decoder that rejects empty input, as `json.Unmarshal` does), and of two bodies that
parse to the same value at most one is not malicious.  After the evaluation of a
readable body the request holds the original body bytes again.  Scenario: the body
`null` is not malicious; the empty body and the variant of `null` with a leading blank
are. -/
theorem C16_pretty_json_iff (lib : StdLib) (r : Request) :
    ((PrettyJSONFingerprinting lib r).1 = false ↔
        r.Body.failing = false ∧
          ∃ j, lib.Unmarshal r.Body.pending = some j ∧
            lib.MarshalIndent j = some r.Body.pending) ∧
      (lib.Unmarshal r.Body.pending = none → (PrettyJSONFingerprinting lib r).1 = true) ∧
      (lib.Unmarshal [] = none → r.Body.pending = [] →
        (PrettyJSONFingerprinting lib r).1 = true) ∧
      (∀ (r2 : Request) j, lib.Unmarshal r.Body.pending = some j →
        lib.Unmarshal r2.Body.pending = some j →
        (PrettyJSONFingerprinting lib r).1 = false →
        (PrettyJSONFingerprinting lib r2).1 = false →
        r2.Body.pending = r.Body.pending) ∧
      (r.Body.failing = false → (PrettyJSONFingerprinting lib r).2 = r) ∧
      (PrettyJSONFingerprinting scenarioLib
          { requestFrom "10.0.0.1" with
            Body := { pending := [110, 117, 108, 108], failing := false } }).1 = false ∧
      (PrettyJSONFingerprinting scenarioLib (requestFrom "10.0.0.1")).1 = true ∧
      (PrettyJSONFingerprinting scenarioLib
          { requestFrom "10.0.0.1" with
            Body := { pending := [32, 110, 117, 108, 108], failing := false } }).1 = true := by
  have hiff := prettyJSON_fst_false_iff lib r
  have hnone : lib.Unmarshal r.Body.pending = none →
      (PrettyJSONFingerprinting lib r).1 = true := by
    intro hu
    cases hv : (PrettyJSONFingerprinting lib r).1 with
    | true => rfl
    | false =>
      obtain ⟨_, j, hj, _⟩ := hiff.1 hv
      rw [hu] at hj
      cases hj
  refine ⟨hiff, hnone, ?_, ?_, prettyJSON_snd_of_readable lib r, by decide, by decide,
    by decide⟩
  · intro hempty hb
    apply hnone
    rw [hb]
    exact hempty
  · intro r2 j hj hj2 h1 h2
    obtain ⟨_, j1, hu1, hm1⟩ := hiff.1 h1
    obtain ⟨_, j2, hu2, hm2⟩ := (prettyJSON_fst_false_iff lib r2).1 h2
    rw [hj] at hu1
    rw [hj2] at hu2
    cases hu1
    cases hu2
    rw [hm1] at hm2
    exact (Option.some.inj hm2).symm

/-! ## The TLS-fingerprint rule -/

theorem compareFieldStrict_cons {T : Type} [DecidableEq T] (x y : T) (xs ys : List T) :
    compareFieldStrict (x :: xs) (y :: ys)
      = (decide (x = y) && compareFieldStrict xs ys) := by
  unfold compareFieldStrict
  by_cases h : xs.length = ys.length
  · simp [h]
  · simp [h]

theorem compareFieldStrict_eq_true {T : Type} [DecidableEq T] (a : List T) :
    ∀ b : List T, compareFieldStrict a b = true ↔ a = b := by
  induction a with
  | nil =>
    intro b
    cases b with
    | nil => simp [compareFieldStrict]
    | cons y ys => simp [compareFieldStrict]
  | cons x xs ih =>
    intro b
    cases b with
    | nil => simp [compareFieldStrict]
    | cons y ys =>
      rw [compareFieldStrict_cons]
      simp [ih ys]

theorem compareFieldLenient_eq_true {T : Type} [DecidableEq T] (a b : List T) :
    compareFieldLenient a b = true ↔ ∀ u ∈ b, u ∈ a := by
  simp [compareFieldLenient, List.all_eq_true, List.any_eq_true]

theorem profileMatches_eq_true (c b : PartialClientHelloFingerprint) :
    profileMatches c b = true ↔
      c.Version = b.Version ∧ (∀ u ∈ b.CipherSuites, u ∈ c.CipherSuites) ∧
        c.SupportedProtos = b.SupportedProtos ∧ c.SupportedPoints = b.SupportedPoints ∧
        c.SupportedVersions = b.SupportedVersions ∧ c.SupportedCurves = b.SupportedCurves := by
  unfold profileMatches
  simp only [Bool.and_eq_true, decide_eq_true_eq, compareFieldStrict_eq_true,
    compareFieldLenient_eq_true]
  tauto

theorem tlsFingerprintClient_eq (w : RuleCacheWAF) (info : ClientHelloInfo) (r : Request) :
    tlsFingerprintClient w info r
      = (clientFingerprintOf info r).map
          (fun c => !(w.fingerprintsToCheckAgainst.any (profileMatches c))) := by
  unfold tlsFingerprintClient clientFingerprintOf
  cases r.TLS with
  | none => rfl
  | some tls =>
    cases info.SupportedVersions with
    | nil => rfl
    | cons g vs =>
      cases info.SupportedCurves with
      | nil => rfl
      | cons h cs => rfl

/-- On a handshake with non-empty version and curve lists and a request with TLS state
the rule returns, and it returns malicious exactly when no baseline of the catalog
matches the GREASE-stripped candidate. -/
theorem tlsFingerprintClient_true_iff (w : RuleCacheWAF) (info : ClientHelloInfo)
    (r : Request) (c : PartialClientHelloFingerprint)
    (hc : clientFingerprintOf info r = some c) :
    ∃ m, tlsFingerprintClient w info r = some m ∧
      (m = true ↔ ¬ ∃ b ∈ w.fingerprintsToCheckAgainst,
        c.Version = b.Version ∧ (∀ u ∈ b.CipherSuites, u ∈ c.CipherSuites) ∧
          c.SupportedProtos = b.SupportedProtos ∧ c.SupportedPoints = b.SupportedPoints ∧
          c.SupportedVersions = b.SupportedVersions ∧
          c.SupportedCurves = b.SupportedCurves) := by
  refine ⟨_, by rw [tlsFingerprintClient_eq, hc]; rfl, ?_⟩
  simp only [Bool.not_eq_true', ← Bool.not_eq_true, List.any_eq_true,
    profileMatches_eq_true]

theorem evalRule_tls_missing (lib : StdLib) (w : RuleCacheWAF) (r : Request)
    (h : w.clientHelloInfoStore.lookup r.RemoteAddr = none) :
    evalRule lib w 3 r = none := by
  have h3 : tlsFingerprintClient w zeroClientHelloInfo r = none := by
    unfold tlsFingerprintClient
    cases r.TLS <;> rfl
  simp [evalRule, h, h3]

/-- C11 (the code fails the claim).  A client whose hello carries no supported curves
(the other lists as Safari sends them) is recorded for `198.51.100.7`.  No baseline
matches it, so the claim has the rule return malicious; the rule returns nothing: the
slice expression `info.SupportedCurves[1:]` panics, `applyRule` panics with it, and so
does the handler of a gateway whose only rule is rule 3. -/
theorem C11_rule_panics_on_empty_curves :
    clientFingerprintOf { safariHello with SupportedCurves := [] }
        (requestFrom "198.51.100.7") = none ∧
      tlsFingerprintClient subnetGateway { safariHello with SupportedCurves := [] }
        (requestFrom "198.51.100.7") = none ∧
      applyRule scenarioLib
          (getClientInfo subnetGateway "198.51.100.7"
            { safariHello with SupportedCurves := [] })
          3 (requestFrom "198.51.100.7")
        = .panicked
            (getClientInfo subnetGateway "198.51.100.7"
              { safariHello with SupportedCurves := [] },
             requestFrom "198.51.100.7") ∧
      ∃ c, ProxyHandler scenarioLib
          (getClientInfo { subnetGateway with Rules := [{ ID := 3, Name := "tls" }] }
            "198.51.100.7" { safariHello with SupportedCurves := [] })
          (requestFrom "198.51.100.7") = .panicked c :=
  ⟨by decide, by decide, by decide, _, rfl⟩

/-- C12: `compareFieldLenient(candidate, baseline)` is true exactly when every element
of the baseline occurs in the candidate, so it depends on the candidate only through
the set of its elements.  A candidate fingerprint whose other fields equal those of a
baseline matches it as soon as its cipher suites include the baseline's, and a handshake
with that candidate is not malicious when the baseline is in the catalog; a candidate
that lacks a cipher suite of the baseline, in particular a strict subset, does not match
it.  Scenario on the default catalog: the Safari handshake with the extra suite
`0x1304` is not malicious, the Safari handshake without `0x1301` is. -/
theorem C12_lenient_cipher_comparison {T : Type} [DecidableEq T] (candidate baseline : List T) :
    (compareFieldLenient candidate baseline = true ↔ ∀ u ∈ baseline, u ∈ candidate) ∧
      (∀ candidate2 : List T, (∀ x, x ∈ candidate2 ↔ x ∈ candidate) →
        compareFieldLenient candidate2 baseline = compareFieldLenient candidate baseline) ∧
      (∀ c b : PartialClientHelloFingerprint,
        c.Version = b.Version → c.SupportedProtos = b.SupportedProtos →
        c.SupportedPoints = b.SupportedPoints →
        c.SupportedVersions = b.SupportedVersions →
        c.SupportedCurves = b.SupportedCurves →
        (∀ u ∈ b.CipherSuites, u ∈ c.CipherSuites) →
        profileMatches c b = true ∧
          ∀ (w : RuleCacheWAF) (info : ClientHelloInfo) (r : Request),
            b ∈ w.fingerprintsToCheckAgainst → clientFingerprintOf info r = some c →
            tlsFingerprintClient w info r = some false) ∧
      (∀ c b : PartialClientHelloFingerprint,
        (∃ u ∈ b.CipherSuites, u ∉ c.CipherSuites) → profileMatches c b = false) ∧
      (∀ c b : PartialClientHelloFingerprint,
        (∀ u ∈ c.CipherSuites, u ∈ b.CipherSuites) →
        (∃ u ∈ b.CipherSuites, u ∉ c.CipherSuites) → profileMatches c b = false) ∧
      tlsFingerprintClient subnetGateway
          { safariHello with CipherSuites := 0x1304 :: safariHello.CipherSuites }
          (requestFrom "198.51.100.7") = some false ∧
      tlsFingerprintClient subnetGateway
          { safariHello with CipherSuites := safariHello.CipherSuites.tail }
          (requestFrom "198.51.100.7") = some true := by
  have hlack : ∀ c b : PartialClientHelloFingerprint,
      (∃ u ∈ b.CipherSuites, u ∉ c.CipherSuites) → profileMatches c b = false := by
    intro c b ⟨u, hub, huc⟩
    cases hm : profileMatches c b with
    | false => rfl
    | true => exact absurd (((profileMatches_eq_true c b).1 hm).2.1 u hub) huc
  refine ⟨compareFieldLenient_eq_true candidate baseline, ?_, ?_, hlack,
    fun c b _ h => hlack c b h, by decide, by decide⟩
  · intro candidate2 hsame
    have h1 := compareFieldLenient_eq_true candidate2 baseline
    have h2 := compareFieldLenient_eq_true candidate baseline
    cases hv : compareFieldLenient candidate baseline with
    | true =>
      exact h1.2 (fun u hu => (hsame u).2 (h2.1 hv u hu))
    | false =>
      cases hv2 : compareFieldLenient candidate2 baseline with
      | false => rfl
      | true =>
        have := h2.2 (fun u hu => (hsame u).1 (h1.1 hv2 u hu))
        rw [hv] at this
        cases this
  · intro c b hver hpro hpts hvs hcs hsub
    have hm : profileMatches c b = true :=
      (profileMatches_eq_true c b).2 ⟨hver, hsub, hpro, hpts, hvs, hcs⟩
    refine ⟨hm, ?_⟩
    intro w info r hb hcand
    rw [tlsFingerprintClient_eq, hcand]
    have hany : w.fingerprintsToCheckAgainst.any (profileMatches c) = true :=
      List.any_eq_true.2 ⟨b, hb, hm⟩
    simp [hany]

/-- C13 (the code fails the claim).  `198.51.100.7` has no registry entry; the lookup
yields the zero-value handshake, and the evaluation of rule 3 on it gives no verdict:
`info.SupportedVersions[1:]` panics on the empty slice, so `applyRule` panics, and so
does the handler of a gateway whose only rule is rule 3. -/
theorem C13_missing_handshake_panics :
    subnetGateway.clientHelloInfoStore.lookup "198.51.100.7" = none ∧
      lookupClientHello subnetGateway "198.51.100.7" = zeroClientHelloInfo ∧
      verdict scenarioLib subnetGateway 3 (requestFrom "198.51.100.7") = none ∧
      applyRule scenarioLib subnetGateway 3 (requestFrom "198.51.100.7")
        = .panicked (subnetGateway, requestFrom "198.51.100.7") ∧
      ∃ c, ProxyHandler scenarioLib
          { subnetGateway with Rules := [{ ID := 3, Name := "tls" }] }
          (requestFrom "198.51.100.7") = .panicked c :=
  ⟨by decide, by decide, by decide, by decide, _, rfl⟩

/-- C18: for a handshake whose supported-versions and supported-curves lists are
non-empty (and a request that carries TLS state) the candidate compared against the
baselines holds those lists without their first element, whatever that element is.  So
the handshake with the lists `g :: b.SupportedVersions` and `h :: b.SupportedCurves`,
the other fields matching, matches baseline `b` for every `g` and `h` and is not
malicious when `b` is in the catalog; a handshake one of whose two lists equals the list
of `b` does not match `b`. -/
theorem C18_grease_stripping (w : RuleCacheWAF) (info : ClientHelloInfo) (r : Request)
    (tls : ConnectionState) (g h : Nat) (versions curves : List Nat)
    (htls : r.TLS = some tls) (hv : info.SupportedVersions = g :: versions)
    (hc : info.SupportedCurves = h :: curves) :
    clientFingerprintOf info r
        = some { Version := tls.Version, CipherSuites := info.CipherSuites,
                 SupportedProtos := info.SupportedProtos,
                 SupportedPoints := info.SupportedPoints,
                 SupportedVersions := versions, SupportedCurves := curves } ∧
      tlsFingerprintClient w info r
        = some (!(w.fingerprintsToCheckAgainst.any
            (profileMatches
              { Version := tls.Version, CipherSuites := info.CipherSuites,
                SupportedProtos := info.SupportedProtos,
                SupportedPoints := info.SupportedPoints,
                SupportedVersions := versions, SupportedCurves := curves }))) ∧
      (∀ b : PartialClientHelloFingerprint,
        tls.Version = b.Version → (∀ u ∈ b.CipherSuites, u ∈ info.CipherSuites) →
        info.SupportedProtos = b.SupportedProtos → info.SupportedPoints = b.SupportedPoints →
        versions = b.SupportedVersions → curves = b.SupportedCurves →
        profileMatches
            { Version := tls.Version, CipherSuites := info.CipherSuites,
              SupportedProtos := info.SupportedProtos,
              SupportedPoints := info.SupportedPoints,
              SupportedVersions := versions, SupportedCurves := curves } b = true ∧
          (b ∈ w.fingerprintsToCheckAgainst → tlsFingerprintClient w info r = some false)) ∧
      (∀ b : PartialClientHelloFingerprint,
        info.SupportedVersions = b.SupportedVersions ∨
          info.SupportedCurves = b.SupportedCurves →
        profileMatches
            { Version := tls.Version, CipherSuites := info.CipherSuites,
              SupportedProtos := info.SupportedProtos,
              SupportedPoints := info.SupportedPoints,
              SupportedVersions := versions, SupportedCurves := curves } b = false) := by
  have hcand : clientFingerprintOf info r
      = some { Version := tls.Version, CipherSuites := info.CipherSuites,
               SupportedProtos := info.SupportedProtos,
               SupportedPoints := info.SupportedPoints,
               SupportedVersions := versions, SupportedCurves := curves } := by
    simp [clientFingerprintOf, htls, hv, hc]
  have hrule := tlsFingerprintClient_eq w info r
  rw [hcand] at hrule
  refine ⟨hcand, hrule, ?_, ?_⟩
  · intro b hver hsub hpro hpts hvs hcs
    have hm := (profileMatches_eq_true
      { Version := tls.Version, CipherSuites := info.CipherSuites,
        SupportedProtos := info.SupportedProtos, SupportedPoints := info.SupportedPoints,
        SupportedVersions := versions, SupportedCurves := curves } b).2
      ⟨hver, hsub, hpro, hpts, hvs, hcs⟩
    refine ⟨hm, fun hb => ?_⟩
    rw [hrule]
    have hany := List.any_eq_true.2 ⟨b, hb, hm⟩
    simp [hany]
  · intro b hb
    cases hm : profileMatches
        { Version := tls.Version, CipherSuites := info.CipherSuites,
          SupportedProtos := info.SupportedProtos, SupportedPoints := info.SupportedPoints,
          SupportedVersions := versions, SupportedCurves := curves } b with
    | false => rfl
    | true =>
      obtain ⟨_, _, _, _, h5, h6⟩ := (profileMatches_eq_true _ b).1 hm
      simp only at h5 h6
      rcases hb with hb | hb
      · rw [hv, ← h5] at hb
        have := congrArg List.length hb
        simp at this
      · rw [hc, ← h6] at hb
        have := congrArg List.length hb
        simp at this

/-- Witness of `C18_grease_stripping`: the Safari handshake on a TLS 1.3 connection. -/
theorem C18_grease_stripping_witness :
    (requestFrom "198.51.100.7").TLS = some { Version := 0x0304 } ∧
      safariHello.SupportedVersions = 0x0a0a :: SafariFingerprint.SupportedVersions ∧
      safariHello.SupportedCurves = 0x0a0a :: SafariFingerprint.SupportedCurves ∧
      tlsFingerprintClient subnetGateway safariHello (requestFrom "198.51.100.7")
        = some false :=
  ⟨rfl, rfl, rfl,
    ((C18_grease_stripping subnetGateway safariHello (requestFrom "198.51.100.7")
        { Version := 0x0304 } 0x0a0a 0x0a0a SafariFingerprint.SupportedVersions
        SafariFingerprint.SupportedCurves rfl rfl rfl).2.2.1
      SafariFingerprint rfl (fun _ hu => hu) rfl rfl rfl rfl).2 (by decide)⟩

/-! ## Where the cache entries come from -/

theorem applyRule_ok_true (lib : StdLib) (w w1 : RuleCacheWAF) (ruleID : Int)
    (r r1 : Request) (h : applyRule lib w ruleID r = .ok true (w1, r1)) :
    ∃ b, evalRule lib w ruleID r = some (true, r1) ∧
      Cache.Set w.Cache r.RemoteAddr ruleID = .ok b w1.Cache ∧
      w1 = { w with Cache := w1.Cache } := by
  unfold applyRule at h
  cases he : evalRule lib w ruleID r with
  | none => simp [he] at h
  | some p =>
    obtain ⟨res, r2⟩ := p
    cases res with
    | false => simp [he] at h
    | true =>
      simp only [he, if_true] at h
      cases hs : Cache.Set w.Cache r.RemoteAddr ruleID with
      | ok b c =>
        simp only [hs, Outcome.ok.injEq, Prod.mk.injEq, true_and] at h
        obtain ⟨hw, hr⟩ := h
        subst hw
        subst hr
        exact ⟨b, rfl, rfl, rfl⟩
      | panicked c => simp [hs] at h
      | diverges c => simp [hs] at h

theorem sweep_ok_true (lib : StdLib) (rules : List Rule) :
    ∀ c c2 : Ctx, sweep lib rules c = .ok true c2 →
      ∃ rule ∈ rules, ∃ b, verdict lib c.waf rule.ID c.req = some true ∧
        Cache.Set c.waf.Cache c.req.RemoteAddr rule.ID = .ok b c2.waf.Cache ∧
        c2.waf = { c.waf with Cache := c2.waf.Cache } := by
  induction rules with
  | nil =>
    intro c c2 h
    simp [sweep] at h
  | cons rule rest ih =>
    intro c c2 h
    simp only [sweep] at h
    cases ha : applyRule lib c.waf rule.ID c.req with
    | ok res p =>
      obtain ⟨w1, r1⟩ := p
      cases res with
      | true =>
        simp only [ha, if_true, Outcome.ok.injEq, true_and] at h
        obtain ⟨b, he, hs, hw⟩ := applyRule_ok_true lib c.waf w1 rule.ID c.req r1 ha
        refine ⟨rule, List.mem_cons_self _ _, b, by simp [verdict, he], ?_, ?_⟩
        · rw [← h]
          exact hs
        · rw [← h]
          exact hw
      | false =>
        simp only [ha, Bool.false_eq_true, if_false] at h
        obtain ⟨hw, hr⟩ := applyRule_ok_false lib c.waf w1 rule.ID c.req r1 ha
        subst hw
        subst hr
        obtain ⟨q, hq, b, hv, hs, hw2⟩ := ih _ c2 h
        exact ⟨q, List.mem_cons_of_mem _ hq, b, hv, hs, hw2⟩
    | panicked p => simp [ha] at h
    | diverges p => simp [ha] at h

theorem fullSweep_step (lib : StdLib) (c0 c : Ctx) (resp : Response)
    (h : fullSweep lib c0 = .ok resp c) :
    c.waf = { c0.waf with Cache := c.waf.Cache } ∧
      (resp.isBlock = false → c.waf = c0.waf) ∧
      (resp.isBlock = true →
        ∃ rule ∈ c0.waf.Rules, ∃ b, verdict lib c0.waf rule.ID c0.req = some true ∧
          Cache.Set c0.waf.Cache c0.req.RemoteAddr rule.ID = .ok b c.waf.Cache) := by
  unfold fullSweep at h
  cases hs : sweep lib c0.waf.Rules c0 with
  | ok res c2 =>
    cases res with
    | true =>
      simp only [hs, if_true, Outcome.ok.injEq] at h
      obtain ⟨hresp, hc⟩ := h
      obtain ⟨rule, hrule, b, hv, hset, hw⟩ := sweep_ok_true lib _ c0 c2 hs
      have hwaf : c.waf = c2.waf := by rw [← hc]
      rw [hwaf]
      refine ⟨hw, ?_, fun _ => ⟨rule, hrule, b, hv, hset⟩⟩
      intro hb
      rw [← hresp] at hb
      simp [Response.isBlock] at hb
    | false =>
      simp only [hs, Bool.false_eq_true, if_false, Outcome.ok.injEq] at h
      obtain ⟨hresp, hc⟩ := h
      have hwaf : c.waf = c0.waf := by
        rw [← hc]
        exact (sweep_ok_false lib _ c0 c2 hs).1
      rw [hwaf]
      refine ⟨rfl, fun _ => rfl, ?_⟩
      intro hb
      rw [← hresp] at hb
      simp [Response.isBlock] at hb
  | panicked c2 => simp [hs] at h
  | diverges c2 => simp [hs] at h

/-- What one run of the decision engine that returns does to the cache: an allowed
request leaves the map as it was; a blocked request puts the entry of the blocking
rule, whose verdict is malicious and which is a configured rule or the rule cached for
the client, and keeps or evicts the entries of the other clients. -/
theorem decisionEngine_step (lib : StdLib) (w : RuleCacheWAF) (r : Request) (c : Ctx)
    (resp : Response) (h : decisionEngine lib w r = .ok resp c) :
    c.waf = { w with Cache := c.waf.Cache } ∧
      (resp.isBlock = false → c.waf.Cache.items = w.Cache.items) ∧
      (resp.isBlock = true →
        ∃ j, verdict lib w j r = some true ∧
          ((∃ rule ∈ w.Rules, rule.ID = j) ∨ w.Cache.items.lookup r.RemoteAddr = some j) ∧
          ∀ client i, c.waf.Cache.items.lookup client = some i →
            (client = r.RemoteAddr ∧ i = j) ∨
            (client ≠ r.RemoteAddr ∧ w.Cache.items.lookup client = some i)) := by
  cases hl : w.Cache.items.lookup r.RemoteAddr with
  | none =>
    rw [decisionEngine_miss lib w r hl] at h
    obtain ⟨h1, h2, h3⟩ := fullSweep_step lib _ c resp h
    refine ⟨h1, fun hb => by rw [h2 hb], fun hb => ?_⟩
    obtain ⟨rule, hrule, b, hv, hset⟩ := h3 hb
    exact ⟨rule.ID, hv, Or.inl ⟨rule, hrule, rfl⟩,
      fun client i hci => set_lookup _ _ _ _ b hset client i hci⟩
  | some i0 =>
    cases he : evalRule lib w i0 r with
    | none =>
      rw [decisionEngine_hit_panicked lib w r i0 hl he] at h
      cases h
    | some p =>
      obtain ⟨res, r1⟩ := p
      cases res with
      | true =>
        rw [decisionEngine_hit_block lib w r r1 i0 hl he] at h
        simp only [Outcome.ok.injEq] at h
        obtain ⟨hresp, hc⟩ := h
        rw [← hc]
        refine ⟨rfl, ?_, fun _ => ⟨i0, by simp [verdict, he], Or.inr rfl, ?_⟩⟩
        · intro hb
          rw [← hresp] at hb
          simp [Response.isBlock] at hb
        · intro client i hci
          have hci1 : (mapAssign r.RemoteAddr i0 w.Cache.items).lookup client = some i := hci
          by_cases hk : client = r.RemoteAddr
          · subst hk
            rw [lookup_mapAssign_self _ i0 w.Cache.items (by simp [hl])] at hci1
            exact Or.inl ⟨rfl, (Option.some.inj hci1).symm⟩
          · rw [lookup_mapAssign_of_ne _ client i0 w.Cache.items hk] at hci1
            exact Or.inr ⟨hk, hci1⟩
      | false =>
        have hv : verdict lib w i0 r = some false := by simp [verdict, he]
        rw [decisionEngine_hit_pass lib w r i0 hl hv] at h
        obtain ⟨h1, h2, h3⟩ := fullSweep_step lib _ c resp h
        refine ⟨h1, fun hb => by rw [h2 hb], fun hb => ?_⟩
        obtain ⟨rule, hrule, b, hv1, hset⟩ := h3 hb
        exact ⟨rule.ID, hv1, Or.inl ⟨rule, hrule, rfl⟩,
          fun client i hci => set_lookup _ _ _ _ b hset client i hci⟩

theorem proxyHandler_step (lib : StdLib) (w : RuleCacheWAF) (r : Request) (c : Ctx)
    (resp : Response) (h : ProxyHandler lib w r = .ok resp c) :
    c.waf = { w with Cache := c.waf.Cache } ∧
      (resp.isBlock = false → c.waf.Cache.items = w.Cache.items) ∧
      (resp.isBlock = true →
        ∃ j, verdict lib w j r = some true ∧
          ((∃ rule ∈ w.Rules, rule.ID = j) ∨ w.Cache.items.lookup r.RemoteAddr = some j) ∧
          ∀ client i, c.waf.Cache.items.lookup client = some i →
            (client = r.RemoteAddr ∧ i = j) ∨
            (client ≠ r.RemoteAddr ∧ w.Cache.items.lookup client = some i)) := by
  unfold ProxyHandler at h
  split_ifs at h with hp
  · simp only [Outcome.ok.injEq] at h
    obtain ⟨hresp, hc⟩ := h
    rw [← hc]
    refine ⟨rfl, fun _ => rfl, ?_⟩
    intro hb
    rw [← hresp] at hb
    simp [Response.isBlock] at hb
  · obtain ⟨h1, h2, h3⟩ := decisionEngine_step lib w _ c resp h
    refine ⟨h1, h2, fun hb => ?_⟩
    obtain ⟨j, hv, hj, hall⟩ := h3 hb
    rw [verdict_host] at hv
    exact ⟨j, hv, hj, hall⟩

theorem verdict_true_range (lib : StdLib) (w : RuleCacheWAF) (ruleID : Int) (r : Request)
    (h : verdict lib w ruleID r = some true) : 0 ≤ ruleID ∧ ruleID ≤ 3 := by
  unfold verdict evalRule at h
  split_ifs at h with h0 h1 h2 h3
  · omega
  · omega
  · omega
  · omega
  · simp at h

theorem verdict_outside_range (lib : StdLib) (w : RuleCacheWAF) (ruleID : Int)
    (r : Request) (h : ruleID < 0 ∨ 3 < ruleID) : verdict lib w ruleID r = some false := by
  have h0 : ¬ ruleID = 0 := by omega
  have h1 : ¬ ruleID = 1 := by omega
  have h2 : ¬ ruleID = 2 := by omega
  have h3 : ¬ ruleID = 3 := by omega
  simp [verdict, evalRule, h0, h1, h2, h3]

theorem verdict_cache (lib : StdLib) (w : RuleCacheWAF) (cache : LRU Int) (ruleID : Int)
    (r : Request) :
    verdict lib { w with Cache := cache } ruleID r = verdict lib w ruleID r := rfl

/-- Along a served history every cache entry is an entry of the initial cache whose
client was not blocked since, or the entry written by the most recent block of its
client. -/
theorem serveLog_entries (lib : StdLib) (reqs : List Request) :
    ∀ (w0 w : RuleCacheWAF) (history : List (Request × Response)),
      CachedIdsConfigured w0 → serveLog lib w0 reqs = some (w, history) →
      w = { w0 with Cache := w.Cache } ∧ CachedIdsConfigured w ∧
      ∀ client i, w.Cache.items.lookup client = some i →
        (w0.Cache.items.lookup client = some i ∧ lastBlocked client history = none) ∨
        (∃ r, lastBlocked client history = some r ∧ r.RemoteAddr = client ∧
          verdict lib w0 i r = some true) := by
  induction reqs with
  | nil =>
    intro w0 w history hgood h
    simp only [serveLog, Option.some.injEq, Prod.mk.injEq] at h
    obtain ⟨hw, hh⟩ := h
    subst hw
    subst hh
    exact ⟨rfl, hgood, fun client i hci => Or.inl ⟨hci, rfl⟩⟩
  | cons r rest ih =>
    intro w0 w history hgood h
    simp only [serveLog] at h
    cases hp : ProxyHandler lib w0 r with
    | panicked c => simp [hp] at h
    | diverges c => simp [hp] at h
    | ok resp c =>
      simp only [hp] at h
      cases hrest : serveLog lib c.waf rest with
      | none => simp [hrest] at h
      | some p =>
        obtain ⟨w1, hist1⟩ := p
        simp only [hrest, Option.some.injEq, Prod.mk.injEq] at h
        obtain ⟨hw, hh⟩ := h
        subst hw
        subst hh
        obtain ⟨hc1, hallow, hblock⟩ := proxyHandler_step lib w0 r c resp hp
        have hgood1 : CachedIdsConfigured c.waf := by
          intro client i hci
          have hrules : c.waf.Rules = w0.Rules := by rw [hc1]
          rw [hrules]
          cases hb : resp.isBlock with
          | false =>
            rw [hallow hb] at hci
            exact hgood client i hci
          | true =>
            obtain ⟨j, _, hj, hall⟩ := hblock hb
            rcases hall client i hci with ⟨_, hij⟩ | ⟨_, hold⟩
            · rw [hij]
              rcases hj with hj | hj
              · exact hj
              · exact hgood _ j hj
            · exact hgood client i hold
        obtain ⟨hw1, hgoodw, hent⟩ := ih c.waf w1 hist1 hgood1 hrest
        have hverd : ∀ i r1, verdict lib c.waf i r1 = verdict lib w0 i r1 := by
          intro i r1
          rw [hc1]
          rfl
        refine ⟨by rw [hw1, hc1], hgoodw, ?_⟩
        intro client i hci
        rcases hent client i hci with ⟨hold, hnone⟩ | ⟨r1, hlast, haddr, hv⟩
        · cases hb : resp.isBlock with
          | false =>
            left
            rw [hallow hb] at hold
            exact ⟨hold, by simp [lastBlocked, hnone, hb]⟩
          | true =>
            obtain ⟨j, hvj, _, hall⟩ := hblock hb
            rcases hall client i hold with ⟨hcl, hij⟩ | ⟨hcl, hold0⟩
            · right
              rw [hcl] at hnone
              refine ⟨r, by simp [lastBlocked, hnone, hb, hcl], hcl.symm, ?_⟩
              rw [hij]
              exact hvj
            · left
              refine ⟨hold0, ?_⟩
              have : ¬ r.RemoteAddr = client := fun e => hcl e.symm
              simp [lastBlocked, hnone, this]
        · right
          refine ⟨r1, by simp [lastBlocked, hlast], haddr, ?_⟩
          rw [← hverd]
          exact hv

/-- Cache entries along runs that return: the gateway starts with the empty cache and
serves a sequence of requests, each run of the handler returning.  Then every entry
`(C, i)` of the cache holds the id of a configured rule, `i` lies in `0..3`, and rule `i`
evaluated malicious on the most recent blocked request from `C`.  A rule whose id is
outside `0..3` never evaluates malicious. -/
theorem cache_entries_of_returning_runs (lib : StdLib) (w0 w : RuleCacheWAF) (N : Int)
    (reqs : List Request) (history : List (Request × Response))
    (hempty : w0.Cache = NewLru N)
    (hserve : serveLog lib w0 reqs = some (w, history)) :
    (∀ client i, w.Cache.items.lookup client = some i →
        (∃ rule ∈ w0.Rules, rule.ID = i) ∧ (0 ≤ i ∧ i ≤ 3) ∧
        ∃ r, lastBlocked client history = some r ∧ r.RemoteAddr = client ∧
          verdict lib w0 i r = some true) ∧
      (∀ ruleID r, ruleID < 0 ∨ 3 < ruleID → verdict lib w0 ruleID r = some false) := by
  have hgood0 : CachedIdsConfigured w0 := by
    intro client i hci
    rw [hempty] at hci
    simp [NewLru] at hci
  obtain ⟨hw, hgood, hent⟩ := serveLog_entries lib reqs w0 w history hgood0 hserve
  refine ⟨?_, fun ruleID r h => verdict_outside_range lib w0 ruleID r h⟩
  intro client i hci
  have hrules : w.Rules = w0.Rules := by rw [hw]
  rcases hent client i hci with ⟨hold, _⟩ | ⟨r, hlast, haddr, hv⟩
  · rw [hempty] at hold
    simp [NewLru] at hold
  · refine ⟨?_, verdict_true_range lib w0 i r hv, r, hlast, haddr, hv⟩
    rw [← hrules]
    exact hgood client i hci

/-- An instance of `cache_entries_of_returning_runs`: the subnet gateway serves a request
from inside the blocked subnet, one from outside carrying the body `null`, and a second
one from inside. -/
theorem cache_entries_of_returning_runs_example :
    subnetGateway.Cache = NewLru 10 ∧
      ∃ w history,
        serveLog scenarioLib
            (getClientInfo subnetGateway "198.51.100.7" safariHello)
            [requestFrom "203.0.113.5",
             { requestFrom "198.51.100.7" with
               Body := { pending := [110, 117, 108, 108], failing := false } },
             requestFrom "203.0.113.5"]
          = some (w, history) ∧
        w.Cache.items = [("203.0.113.5", 0)] ∧
        (history.map fun p => p.2.isBlock) = [true, false, true] ∧
        ∀ client i, w.Cache.items.lookup client = some i →
          (∃ rule ∈ subnetGateway.Rules, rule.ID = i) ∧ (0 ≤ i ∧ i ≤ 3) ∧
          ∃ r, lastBlocked client history = some r ∧ r.RemoteAddr = client ∧
            verdict scenarioLib (getClientInfo subnetGateway "198.51.100.7" safariHello)
              i r = some true :=
  ⟨rfl, _, _, rfl, by decide, by decide,
    (cache_entries_of_returning_runs scenarioLib
      (getClientInfo subnetGateway "198.51.100.7" safariHello) _ 10
      [requestFrom "203.0.113.5",
       { requestFrom "198.51.100.7" with
         Body := { pending := [110, 117, 108, 108], failing := false } },
       requestFrom "203.0.113.5"] _ rfl rfl).1⟩

/-- C19 (the code fails the claim).  The header gateway starts with the empty cache and
serves twelve HTTP/2 requests that lack the required header.  The first eleven, two from
`10.0.0.1` and one each from `10.0.0.2` to `10.0.0.10`, are answered with 403; none of
them comes from `10.0.0.11`.  The run for the twelfth, from `10.0.0.11`, evaluates rule 1
malicious and panics inside `Cache.Set`, after the entry was added to the map and before
any response is written.  The cache it leaves holds the entry `("10.0.0.11", 1)`,
although no request from `10.0.0.11` was blocked. -/
theorem C19_cache_entry_without_block :
    headerGateway.Cache = NewLru 10 ∧
      ∃ history c,
        serveLog scenarioLib headerGateway
            (["10.0.0.1", "10.0.0.1", "10.0.0.2", "10.0.0.3", "10.0.0.4", "10.0.0.5",
              "10.0.0.6", "10.0.0.7", "10.0.0.8", "10.0.0.9", "10.0.0.10"].map requestFrom)
          = some (poisonedHeaderGateway, history) ∧
        (history.map fun p => (p.1.RemoteAddr, p.2.isBlock))
          = [("10.0.0.1", true), ("10.0.0.1", true), ("10.0.0.2", true), ("10.0.0.3", true),
             ("10.0.0.4", true), ("10.0.0.5", true), ("10.0.0.6", true), ("10.0.0.7", true),
             ("10.0.0.8", true), ("10.0.0.9", true), ("10.0.0.10", true)] ∧
        lastBlocked "10.0.0.11" history = none ∧
        ProxyHandler scenarioLib poisonedHeaderGateway (requestFrom "10.0.0.11")
          = .panicked c ∧
        c.log = [LogEntry.applyingRule "headers" 1] ∧
        c.waf.Cache.items.lookup "10.0.0.11" = some 1 ∧
        Len c.waf.Cache = 11 :=
  ⟨rfl, _, _, rfl, by decide, by decide, rfl, by decide, by decide, by decide⟩

/-! ## A required header that is not canonical -/

/-- C21: when the required-header list holds a name `h` that differs from its canonical
form, `HeaderFingerprinting` returns malicious for every request: if `h` is not a key of
the header map the presence check fails, since the name is looked up verbatim, and if
`h` is a key the canonical-case check fails on that key. -/
theorem C21_noncanonical_required_header (lib : StdLib) (w : RuleCacheWAF) (r : Request)
    (h : String) (hreq : h ∈ w.validHeaders) (hnc : lib.CanonicalHeaderKey h ≠ h) :
    HeaderFingerprinting lib w r = true ∧
      (h ∉ r.Header.map Prod.fst → headersPresent r.Header w.validHeaders = false) ∧
      (h ∈ r.Header.map Prod.fst → headersCanonical lib r.Header = false) := by
  have hp : h ∉ r.Header.map Prod.fst → headersPresent r.Header w.validHeaders = false := by
    intro hk
    cases hv : headersPresent r.Header w.validHeaders with
    | false => rfl
    | true => exact absurd ((headersPresent_eq_true r.Header w.validHeaders).1 hv h hreq) hk
  have hc : h ∈ r.Header.map Prod.fst → headersCanonical lib r.Header = false := by
    intro hk
    cases hv : headersCanonical lib r.Header with
    | false => rfl
    | true => exact absurd ((headersCanonical_eq_true lib r.Header).1 hv h hk) hnc
  refine ⟨?_, hp, hc⟩
  unfold HeaderFingerprinting
  by_cases hk : h ∈ r.Header.map Prod.fst
  · simp [hc hk]
  · simp [hp hk]

/-- Witness of `C21_noncanonical_required_header`: the required name `user-agent`, on a
request that carries the key `User-Agent`. -/
theorem C21_noncanonical_required_header_witness :
    "user-agent" ∈ ({ headerGateway with validHeaders := ["user-agent"] }).validHeaders ∧
      scenarioLib.CanonicalHeaderKey "user-agent" ≠ "user-agent" ∧
      HeaderFingerprinting scenarioLib { headerGateway with validHeaders := ["user-agent"] }
          { requestFrom "10.0.0.1" with Header := [("User-Agent", ["curl"])] } = true ∧
      HeaderFingerprinting scenarioLib { headerGateway with validHeaders := ["user-agent"] }
          { requestFrom "10.0.0.1" with Header := [("user-agent", ["curl"])] } = true :=
  ⟨by decide, by decide,
    (C21_noncanonical_required_header scenarioLib
      { headerGateway with validHeaders := ["user-agent"] }
      { requestFrom "10.0.0.1" with Header := [("User-Agent", ["curl"])] }
      "user-agent" (by decide) (by decide)).1,
    by decide⟩

end Waf
